import Mathlib

/-!
Verification of the Ovenbird cross-simulator trace reconciliation pipeline.

The definitions below are a shallow embedding of the relevant parts of
`ovenbird/cosimulation.py` (`_vivado_generic_cosimulation`: cell decoding,
column classification, merge into the reference skeleton, AXI packet
reassembly and cycle trimming) and of `ovenbird/vivado_ip.py`
(`VivadoIP.__init__`, `get_vhdl_instance`, `get_verilog_instance`,
`write_vhdl_wrapper`).

Python dictionaries are embedded as association lists with insertion-order
semantics (`dictSet` replaces in place, otherwise appends, exactly as a
Python dict assignment does).  Python exceptions are embedded with
`Except String`.
-/

namespace Ovenbird

/-- Python dict assignment `d[k] = v`: replace the value at the first
occurrence of `k` keeping its position, otherwise append `(k, v)`. -/
def dictSet {κ α : Type} [DecidableEq κ] (d : List (κ × α)) (k : κ) (v : α) :
    List (κ × α) :=
  match d with
  | [] => [(k, v)]
  | (k', v') :: rest =>
      if k' = k then (k, v) :: rest else (k', v') :: dictSet rest k v

/-- Python dict read `d[k]` (first matching key). -/
def dictGet? {κ α : Type} [DecidableEq κ] (d : List (κ × α)) (k : κ) :
    Option α :=
  match d with
  | [] => none
  | (k', v') :: rest => if k' = k then some v' else dictGet? rest k

/-- Building a list element by element where each element may raise: the
first raised exception propagates. -/
def mapExcept {α β : Type} (f : α → Except String β) :
    List α → Except String (List β)
  | [] => .ok []
  | a :: rest =>
      match f a with
      | .error e => .error e
      | .ok b =>
          match mapExcept f rest with
          | .error e => .error e
          | .ok bs => .ok (b :: bs)

/-- The Python values manipulated by the decoder: `None` (the undefined
marker), booleans, (unbounded) integers, lists, and string-keyed dicts. -/
inductive PyObj where
  | none_ : PyObj
  | pybool : Bool → PyObj
  | pyint : Int → PyObj
  | pylist : List PyObj → PyObj
  | pydict : List (String × PyObj) → PyObj
  deriving BEq, Repr

/-- Models Python `int(s)` on the fragment the capture files use:
an optional single `+`/`-` sign followed by one or more decimal digits
(whitespace and underscore forms do not occur in the capture files). -/
def pyIntDec? (s : String) : Option Int :=
  let p : Bool × List Char :=
    match s.toList with
    | '-' :: rest => (true, rest)
    | '+' :: rest => (false, rest)
    | cs => (false, cs)
  if p.2 ≠ [] ∧ p.2.all Char.isDigit then
    let n : Nat := p.2.foldl (fun a c => a * 10 + (c.toNat - 48)) 0
    some (if p.1 then -(n : Int) else (n : Int))
  else none

/-- Models Python `int(s, 2)` on the fragment the capture files use:
an optional single `+`/`-` sign followed by one or more binary digits. -/
def pyIntBin? (s : String) : Option Int :=
  let p : Bool × List Char :=
    match s.toList with
    | '-' :: rest => (true, rest)
    | '+' :: rest => (false, rest)
    | cs => (false, cs)
  if p.2 ≠ [] ∧ p.2.all (fun c => c = '0' ∨ c = '1') then
    let n : Nat := p.2.foldl (fun a c => a * 2 + (c.toNat - 48)) 0
    some (if p.1 then -(n : Int) else (n : Int))
  else none

/-- Models the myhdl constructor `intbv(s)` applied to a string: underscores
are removed and the remainder is parsed as base-2 (`long(mval, 2)`). -/
def intbvParse? (s : String) : Option Int :=
  pyIntBin? (String.mk (s.toList.filter (fun c => c ≠ '_')))

/-- Models `intbv(...)[n:]` followed by `.signed()`: the low `n` bits
reinterpreted as a two's complement value (myhdl `intbv.signed`). -/
def intbvSigned (u : Int) (n : Nat) : Int :=
  if n ≠ 0 ∧ (2 : Int) ^ (n - 1) ≤ u then u - 2 ^ n else u

/-- Embeds the per-cell decode of `_vivado_generic_cosimulation`
(cosimulation.py lines 425-446): for `signal_type == 'bool'` the cell is
`bool(int(text))`; otherwise the cell is `intbv(text)[len(text):]`, followed
by `.signed()` when `signal_type == 'signed'`; any `ValueError` (a failed
parse) makes the cell `None`. -/
def decodeCell (signalType : String) (s : String) : PyObj :=
  if signalType = "bool" then
    match pyIntDec? s with
    | some v => .pybool (v != 0)
    | none => .none_
  else
    match intbvParse? s with
    | some v =>
        let n := s.length
        let u : Int := v % ((2 : Int) ^ n)
        if signalType = "signed" then .pyint (intbvSigned u n)
        else .pyint u
    | none => .none_

/-! ### Decimal rendering, modelling Python `str(n)` for a non-negative int -/

/-- Little-endian decimal digits of `n`, with explicit fuel so that the
definition is structural (any `fuel ≥ n` gives the same answer). -/
def natDigitsRun : Nat → Nat → List Nat
  | 0, _ => []
  | _ + 1, 0 => []
  | fuel + 1, n + 1 => (n + 1) % 10 :: natDigitsRun fuel ((n + 1) / 10)

/-- Little-endian decimal digits of `n`. -/
def natDigits (n : Nat) : List Nat := natDigitsRun n n

/-- The character for one decimal digit. -/
def decDigitChar (d : Nat) : Char :=
  if d = 0 then '0' else if d = 1 then '1' else if d = 2 then '2'
  else if d = 3 then '3' else if d = 4 then '4' else if d = 5 then '5'
  else if d = 6 then '6' else if d = 7 then '7' else if d = 8 then '8'
  else '9'

/-- Decimal rendering of a natural number, modelling Python `str(n)`
(the instance counters are only ever non-negative). -/
def natDecimal (n : Nat) : String :=
  if n = 0 then "0"
  else String.mk ((natDigits n).reverse.map decDigitChar)

/-! ### Embedding of `ovenbird/vivado_ip.py` -/

/-- The `direction` entry of a port tuple: one of the two `PortDirection`
enum members, or any other Python value (the code only compares it with
`==` against the two members, so anything else is a third case). -/
inductive PortDir where
  | input
  | output
  | other (tag : String)
  deriving BEq, DecidableEq, Repr

/-- One value of the `ports` dictionary passed to `VivadoIP.__init__`: the
tuple `(type, direction, ip_mapping)`, with the myhdl `type` object
abstracted to exactly what the code reads from it, namely `len(port_type)`
(`width`) and the truth of `port_type.min < 0` (`minNegative`). -/
structure PortSpec where
  width : Nat
  minNegative : Bool
  direction : PortDir
  ipMapping : String
  deriving BEq, DecidableEq, Repr

/-- The attribute state of a `VivadoIP` object as set up by
`VivadoIP.__init__` and mutated by the instance-creating methods. -/
structure VivadoIP where
  entity_name : String
  ip_name : String
  module_name : String
  ports : List (String × PortSpec)
  vendor : String
  library : String
  version : String
  config : List (String × String)
  vhdl_instance_idx : Nat
  verilog_instance_idx : Nat
  deriving BEq, DecidableEq, Repr

/-- `VivadoIP.__init__` (vivado_ip.py lines 77-130): every argument is
stored as given, `module_name` is derived, and both instance counters start
at 0.  No validation of any kind is performed. -/
def vivadoIPInit (entity_name : String) (ports : List (String × PortSpec))
    (ip_name vendor library version : String)
    (config : List (String × String)) : VivadoIP :=
  { entity_name := entity_name
    ip_name := ip_name
    module_name := ip_name ++ "_" ++ entity_name
    ports := ports
    vendor := vendor
    library := library
    version := version
    config := config
    vhdl_instance_idx := 0
    verilog_instance_idx := 0 }

/-- Python `s.replace('.', '_')`. -/
def dotToUnderscore (s : String) : String :=
  String.mk (s.toList.map (fun c => if c = '.' then '_' else c))

/-- The instance name `self.entity_name + '_' + str(self._vhdl_instance_idx)`
generated by `get_vhdl_instance`. -/
def vhdlInstanceName (ip : VivadoIP) : String :=
  ip.entity_name ++ "_" ++ natDecimal ip.vhdl_instance_idx

/-- The instance name generated by `get_verilog_instance`. -/
def verilogInstanceName (ip : VivadoIP) : String :=
  ip.entity_name ++ "_" ++ natDecimal ip.verilog_instance_idx

/-- `VivadoIP.get_vhdl_instance` (vivado_ip.py lines 162-226): returns the
instantiation string and the updated object (the VHDL instance counter is
incremented).  The loop runs over `self.ports`; keys of `port_mappings`
that are not port names are never read. -/
def getVhdlInstance (ip : VivadoIP)
    (port_mappings : List (String × String)) : String × VivadoIP :=
  let instance_name := vhdlInstanceName ip
  let port_mapping_strings := ip.ports.map (fun p =>
    let instance_port_name :=
      match dictGet? port_mappings p.1 with
      | some v => v
      | none => p.1
    let instance_port_string :=
      "$\x7b" ++ dotToUnderscore instance_port_name ++ "\x7d"
    dotToUnderscore p.1 ++ "=>" ++ instance_port_string)
  let all_port_mappings := String.intercalate ",\n    " port_mapping_strings
  let code := "\n" ++ instance_name ++ ": entity work." ++ ip.entity_name
      ++ "(MyHDL)\nport map (\n    " ++ all_port_mappings ++ "\n);\n"
  (code, { ip with vhdl_instance_idx := ip.vhdl_instance_idx + 1 })

/-- `VivadoIP.get_verilog_instance` (vivado_ip.py lines 330-454): returns
the instantiation string and the updated object (the Verilog instance
counter is incremented).  As in the VHDL variant, keys of `port_mappings`
that are not port names are never read. -/
def getVerilogInstance (ip : VivadoIP)
    (port_mappings : List (String × String)) : String × VivadoIP :=
  let instance_name := verilogInstanceName ip
  let port_mapping_strings := ip.ports.map (fun p =>
    let instance_port_name :=
      match dictGet? port_mappings p.1 with
      | some v => v
      | none => p.1
    let instance_port_string := "$\x7b" ++ instance_port_name ++ "\x7d"
    "." ++ p.2.ipMapping ++ "(" ++ instance_port_string ++ ")")
  let all_port_mappings := String.intercalate ",\n    " port_mapping_strings
  let code := "\n" ++ ip.module_name ++ " " ++ instance_name ++ " (\n    "
      ++ all_port_mappings ++ "\n);\n"
  (code, { ip with verilog_instance_idx := ip.verilog_instance_idx + 1 })

/-- The strings generated for one port by the loop of
`VivadoIP.write_vhdl_wrapper` (vivado_ip.py lines 254-304). -/
structure WrapperLine where
  entityPort : String
  wrappedSignal : String
  assignment : String
  ipComponentPort : String
  ipPortMapping : String
  deriving BEq, DecidableEq, Repr

/-- One iteration of the port loop of `write_vhdl_wrapper`: computes the
type strings from the port width, then the direction-dependent assignment;
an unrecognized direction raises `ValueError('Unsupported direction')`. -/
def wrapperPortStrings (port_name : String) (p : PortSpec) :
    Except String WrapperLine :=
  let ip_type_string := if p.width > 1 then "std_logic_vector" else "std_logic"
  let entity_type_string :=
    if p.width > 1 then (if p.minNegative then "signed" else "unsigned")
    else "std_logic"
  let size_string :=
    if p.width > 1 then "(" ++ natDecimal (p.width - 1) ++ " downto 0)"
    else ""
  match p.direction with
  | .input =>
      let direction_string := "in"
      .ok { entityPort := port_name ++ ": " ++ direction_string ++ " "
              ++ entity_type_string ++ size_string
            wrappedSignal := "signal wrapped_" ++ port_name ++ ": "
              ++ ip_type_string ++ size_string
            assignment := "wrapped_" ++ port_name ++ " <= "
              ++ ip_type_string ++ "(" ++ port_name ++ ")"
            ipComponentPort := p.ipMapping ++ ": " ++ direction_string ++ " "
              ++ ip_type_string ++ size_string
            ipPortMapping := p.ipMapping ++ " => wrapped_" ++ port_name }
  | .output =>
      let direction_string := "out"
      .ok { entityPort := port_name ++ ": " ++ direction_string ++ " "
              ++ entity_type_string ++ size_string
            wrappedSignal := "signal wrapped_" ++ port_name ++ ": "
              ++ ip_type_string ++ size_string
            assignment := port_name ++ " <= " ++ entity_type_string
              ++ "(wrapped_" ++ port_name ++ ")"
            ipComponentPort := p.ipMapping ++ ": " ++ direction_string ++ " "
              ++ ip_type_string ++ size_string
            ipPortMapping := p.ipMapping ++ " => wrapped_" ++ port_name }
  | .other _ => .error "ValueError: Unsupported direction"

/-- The port loop of `write_vhdl_wrapper` over the whole `ports`
dictionary: stops at the first port with an unrecognized direction. -/
def writeVhdlWrapperLines (ports : List (String × PortSpec)) :
    Except String (List WrapperLine) :=
  mapExcept (fun p => wrapperPortStrings p.1 p.2) ports

/-- A sequence of `get_vhdl_instance` calls, one per override dictionary in
the list, collecting the generated instance names in call order. -/
def runVhdlCalls (ip : VivadoIP) :
    List (List (String × String)) → List String × VivadoIP
  | [] => ([], ip)
  | ov :: rest =>
      let r := getVhdlInstance ip ov
      let t := runVhdlCalls r.2 rest
      (vhdlInstanceName ip :: t.1, t.2)

/-- A sequence of `get_verilog_instance` calls, collecting the generated
instance names in call order. -/
def runVerilogCalls (ip : VivadoIP) :
    List (List (String × String)) → List String × VivadoIP
  | [] => ([], ip)
  | ov :: rest =>
      let r := getVerilogInstance ip ov
      let t := runVerilogCalls r.2 rest
      (verilogInstanceName ip :: t.1, t.2)

/-! ### Embedding of the decode stage of `_vivado_generic_cosimulation`

The capture table is embedded in column form: a list of
`(header, cell texts)` pairs in column order (the Python code builds
exactly this `_vivado_signals` dict from the csv rows, lines 405-418).
Reference outputs, `arg_types` and all other Python dicts are association
lists in insertion order.  The shallow `copy.copy` that seeds
`dut_outputs` from `ref_outputs` is embedded as starting from the same
association list; the stages below never mutate a value in place (every
per-cycle overwrite is a `.copy()` followed by `.update(...)` in the
source), with one documented exception: the packet-attachment loop
mutates the dict object stored for an `axi_stream_out` argument in
place, which in Python is visible through `ref_outputs` too when the
argument was never overwritten.  No claim observes that key, and the
embedding rebinds only the `dut` entry. -/

/-- Result of the header-classification loop (lines 405-477): the plain
column writes in column order, the nested `interface_outputs` dict and the
nested `siglist_outputs` dict. -/
structure Classified where
  plains : List (String × List PyObj)
  interfaces : List (String × List (String × List PyObj))
  siglists : List (String × List (Int × List PyObj))
  deriving Repr

/-- Helper for `pySplitChar`: the accumulator holds the current piece in
reverse. -/
def pySplitCharAux (sep : Char) : List Char → List Char → List String
  | [], acc => [String.mk acc.reverse]
  | c :: rest, acc =>
      if c = sep then String.mk acc.reverse :: pySplitCharAux sep rest []
      else pySplitCharAux sep rest (c :: acc)

/-- Python `s.split(sep)` for a single-character separator: split at every
occurrence, keeping empty pieces (the code only ever splits on `' '` and
`'.'`). -/
def pySplitChar (sep : Char) (s : String) : List String :=
  pySplitCharAux sep s.toList []

/-- Last index of `c` in `cs`. -/
def lastIdxOf (cs : List Char) (c : Char) : Option Nat :=
  match cs.reverse.findIdx? (fun x => x = c) with
  | some k => some (cs.length - 1 - k)
  | none => none

/-- The match of `re.search('(?P<list_name>.*)\[(?P<index>.*)\]', s)` on a
single-line `s`: both groups are greedy, so a match exists iff `s` has a
`'['` with a `']'` after it, `index` ends at the last `']'` of `s` and
`list_name` ends at the last `'['` before that `']'`. -/
def listHeaderParse? (s : String) : Option (String × String) :=
  let cs := s.toList
  match lastIdxOf cs ']' with
  | none => none
  | some j =>
      match lastIdxOf (cs.take j) '[' with
      | none => none
      | some i =>
          some (String.mk (cs.take i),
                String.mk ((cs.drop (i + 1)).take (j - i - 1)))

/-- One iteration of the classification loop (lines 407-477): split the
header on single spaces, decode every cell, then dispatch on the
container-kind token.  This loop raises only for: a header that does not
split into exactly three tokens (tuple-unpacking `ValueError`), an
`interface` name with no `'.'` (`IndexError` on the second component), a
`list` name the regex does not match (`AttributeError` on `None.group`),
or a `list` index that is not an integer (`ValueError`).  Any container
token other than `interface` or `list` takes the final `else` branch and
is written to `dut_outputs` as an ordinary scalar column; an `interface`
name with more than one `'.'` keeps only its first two components. -/
def classifyStep (st : Classified) (col : String × List String) :
    Except String Classified :=
  match pySplitChar ' ' col.1 with
  | [sig_container, signal_type, each_signal] =>
      let each_dut_outputs := col.2.map (decodeCell signal_type)
      if sig_container = "interface" then
        match pySplitChar '.' each_signal with
        | name0 :: name1 :: _ =>
            let inner := (dictGet? st.interfaces name0).getD []
            .ok { st with interfaces :=
                    (dictSet st.interfaces name0
                      (dictSet inner name1 each_dut_outputs)) }
        | _ => .error "IndexError: interface name has no field component"
      else if sig_container = "list" then
        match listHeaderParse? each_signal with
        | some (siglist_name, idxStr) =>
            match pyIntDec? idxStr with
            | some idx =>
                let inner := (dictGet? st.siglists siglist_name).getD []
                .ok { st with siglists :=
                        (dictSet st.siglists siglist_name
                          (dictSet inner idx each_dut_outputs)) }
            | none => .error "ValueError: invalid literal for int"
        | none => .error "AttributeError: list header does not match"
      else
        .ok { st with plains := st.plains ++ [(each_signal, each_dut_outputs)] }
  | _ => .error "ValueError: header does not unpack into three tokens"

/-- The whole classification loop over the capture table's columns. -/
def classify (cols : List (String × List String)) : Except String Classified :=
  cols.foldlM classifyStep { plains := [], interfaces := [], siglists := [] }

/-- The scalar writes `dut_outputs[each_signal] = each_dut_outputs` of the
classification loop, applied in column order. -/
def applyPlains (dut : List (String × PyObj))
    (plains : List (String × List PyObj)) : List (String × PyObj) :=
  plains.foldl (fun d p => dictSet d p.1 (.pylist p.2)) dut

/-- The row count of `zip(*xss)`: the minimum length (0 for no iterables). -/
def zipStarLen {α : Type} (xss : List (List α)) : Nat :=
  match xss with
  | [] => 0
  | x :: rest => rest.foldl (fun m l => min m l.length) x.length

/-- Python `zip(*xss)` materialised as a list of rows (truncating
transpose). -/
def zipStar {α : Type} (xss : List (List α)) : List (List α) :=
  (List.range (zipStarLen xss)).map (fun i => xss.filterMap (fun l => l[i]?))

/-- Python `sorted(items, key=lambda t: t[0])` on the items of an
integer-keyed dict: the keys are distinct, so this is the unique
key-ascending reordering. -/
def sortByKey (items : List (Int × List PyObj)) : List (Int × List PyObj) :=
  items.insertionSort (fun a b => a.1 ≤ b.1)

/-- The list-reconstruction loop (lines 481-494): order each group by
integer index ascending, transpose cycle-by-cycle, and overwrite the
`dut_outputs` entry (unconditionally). -/
def applySiglists (dut : List (String × PyObj))
    (siglists : List (String × List (Int × List PyObj))) :
    List (String × PyObj) :=
  siglists.foldl (fun d s =>
    let ordered := sortByKey s.2
    let rows := zipStar (ordered.map Prod.snd)
    dictSet d s.1 (.pylist (rows.map PyObj.pylist))) dut

/-- `d.copy()` followed by `d.update(dict(pairs))`: replace the value of
each already-present key in place, append new keys in pair order. -/
def pyDictUpdate (d : List (String × PyObj)) (pairs : List (String × PyObj)) :
    List (String × PyObj) :=
  pairs.foldl (fun acc kv => dictSet acc kv.1 kv.2) d

/-- The zip body of the interface-reconstruction loop (lines 510-527):
per cycle, `new_interface_out = ref_output.copy()` followed by
`new_interface_out.update(dict(zip(attr_names, simulated_output)))`; a
cycle value without a `copy` method raises. -/
def mergeCyclesFun (attr_names : List String)
    (reordered : List (List PyObj)) (refCycles : List PyObj) :
    Except String (List PyObj) :=
  mapExcept (fun rc =>
      match rc.1 with
      | .pydict rd =>
          Except.ok (PyObj.pydict (pyDictUpdate rd (attr_names.zip rc.2)))
      | _ => Except.error "AttributeError: cycle value has no copy method")
    (refCycles.zip reordered)

/-- One iteration of the interface-reconstruction loop (lines 496-529):
look up the argument's type in `arg_types` (`KeyError` if absent), read
the field names in discovery order, transpose the field columns, zip them
against the trace currently in `dut_outputs` and overwrite only the
recorded fields of each cycle dict.  The `dut_outputs` assignment sits
inside the `for` loop, so an empty zip leaves the previous entry. -/
def applyInterfaceStep (argTypes : List (String × String))
    (d : List (String × PyObj))
    (group : String × List (String × List PyObj)) :
    Except String (List (String × PyObj)) :=
  match dictGet? argTypes group.1 with
  | none => .error "KeyError: arg_types"
  | some signal_type =>
      match dictGet? d group.1 with
      | none => .error "KeyError: dut_outputs"
      | some current =>
          if signal_type = "axi_stream_out" then
            match current with
            | .pydict cd =>
                match dictGet? cd "signals" with
                | some (.pylist refSignals) =>
                    match mergeCyclesFun (group.2.map Prod.fst)
                        (zipStar (group.2.map Prod.snd)) refSignals with
                    | .error e => .error e
                    | .ok merged =>
                        if merged.isEmpty then .ok d
                        else .ok (dictSet d group.1
                                   (.pydict [("signals", .pylist merged)]))
                | _ => .error "KeyError: signals"
            | _ => .error "TypeError: axi_stream_out entry is not a dict"
          else
            match current with
            | .pylist refCycles =>
                match mergeCyclesFun (group.2.map Prod.fst)
                    (zipStar (group.2.map Prod.snd)) refCycles with
                | .error e => .error e
                | .ok merged =>
                    if merged.isEmpty then .ok d
                    else .ok (dictSet d group.1 (.pylist merged))
            | _ => .error "TypeError: interface entry is not a list"

/-- Steps 1-4 of the decode (classification, plain writes, list and
interface reconstruction): everything between reading the capture table
and the packet/trim phases.  `ref` is `sim_object.outputs[1]`; the
initial `dut_outputs` is `copy.copy(ref)`. -/
def mergeStep (ref : List (String × PyObj))
    (argTypes : List (String × String))
    (cols : List (String × List String)) :
    Except String (List (String × PyObj)) :=
  match classify cols with
  | .error e => .error e
  | .ok cl =>
      let d1 := applyPlains ref cl.plains
      let d2 := applySiglists d1 cl.siglists
      cl.interfaces.foldlM (applyInterfaceStep argTypes) d2

/-- One row of an `axi_stream_out` side file, restricted to the two keys
the loop reads: `TDATA` (always present in the generated file) and
`TLAST` (possibly absent, giving `KeyError`). -/
structure AxiRow where
  tdata : String
  tlast : Option String
  deriving BEq, DecidableEq, Repr

/-- The packet-reassembly loop for one argument (lines 541-553): each
row's `TDATA` is parsed with `int(_, 2)` and appended to the current
packet before the frame flag is examined; a present, integer, nonzero
`TLAST` closes the packet; an absent `TLAST` key raises `KeyError`, which
is caught and passed over; a present but non-integer `TLAST` raises an
uncaught `ValueError`. -/
def axiPacketFold (rows : List AxiRow) (packets : List (List Int))
    (packet : List Int) : Except String (List (List Int) × List Int) :=
  match rows with
  | [] => .ok (packets, packet)
  | row :: rest =>
      match pyIntBin? row.tdata with
      | none => .error "ValueError: invalid literal for int with base 2"
      | some v =>
          let packet' := packet ++ [v]
          match row.tlast with
          | none => axiPacketFold rest packets packet'
          | some t =>
              match pyIntDec? t with
              | none => .error "ValueError: invalid literal for int"
              | some f =>
                  if f ≠ 0 then axiPacketFold rest (packets ++ [packet']) []
                  else axiPacketFold rest packets packet'

/-- The full packet reassembly for one argument: `(packets,
incomplete_packet)`. -/
def axiPacketDecode (rows : List AxiRow) :
    Except String (List (List Int) × List Int) :=
  axiPacketFold rows [] []

/-- Turn the decoded packets into the Python objects stored under the
`packets` and `incomplete_packet` keys. -/
def packetsObj (r : List (List Int) × List Int) : PyObj × PyObj :=
  (.pylist (r.1.map (fun p => .pylist (p.map PyObj.pyint))),
   .pylist (r.2.map PyObj.pyint))

/-- The packet-attachment loop (lines 531-555): for every reference
argument of type `axi_stream_out`, reassemble the side file and store the
result under the `packets` and `incomplete_packet` keys of the argument's
`dut_outputs` dict. -/
def attachAxiPackets (argTypes : List (String × String))
    (axiFiles : String → List AxiRow) (dut ref : List (String × PyObj)) :
    Except String (List (String × PyObj)) :=
  ref.foldlM (fun d nv =>
    match dictGet? argTypes nv.1 with
    | none => .error "KeyError: arg_types"
    | some ty =>
        if ty = "axi_stream_out" then
          match axiPacketDecode (axiFiles nv.1) with
          | .error e => .error e
          | .ok r =>
              match dictGet? d nv.1 with
              | none => .error "KeyError: dut_outputs"
              | some (.pydict cd) =>
                  let objs := packetsObj r
                  let cd1 := dictSet cd "packets" objs.1
                  let cd2 := dictSet cd1 "incomplete_packet" objs.2
                  .ok (dictSet d nv.1 (.pydict cd2))
              | some _ =>
                  .error "TypeError: axi_stream_out entry is not a dict"
        else .ok d) dut

/-- The `[:outputs_length]` slice applied to one trace value inside the
trimming loop: the `signals` entry for an `axi_stream_out` argument, the
value itself otherwise. -/
def trimValue (ty : String) (L : Nat) (v : PyObj) : Except String PyObj :=
  if ty = "axi_stream_out" then
    match v with
    | .pydict vd =>
        match dictGet? vd "signals" with
        | some (.pylist sigs) =>
            .ok (.pydict (dictSet vd "signals" (.pylist (sigs.take L))))
        | _ => .error "KeyError: signals"
    | _ => .error "TypeError: axi_stream_out entry is not a dict"
  else
    match v with
    | .pylist xs => .ok (.pylist (xs.take L))
    | _ => .error "TypeError: slicing a non-list"

/-- The trimming loop (lines 557-569): for every reference argument, both
the `ref_outputs` and the `dut_outputs` trace are sliced with
`[:outputs_length]`. -/
def trimOutputs (argTypes : List (String × String)) (L : Nat)
    (dut ref : List (String × PyObj)) :
    Except String (List (String × PyObj) × List (String × PyObj)) :=
  ref.foldlM (fun dr nv =>
    match dictGet? argTypes nv.1 with
    | none => .error "KeyError: arg_types"
    | some ty =>
        match trimValue ty L nv.2 with
        | .error e => .error e
        | .ok newRef =>
            match dictGet? dr.1 nv.1 with
            | none => .error "KeyError: dut_outputs"
            | some cur =>
                match trimValue ty L cur with
                | .error e => .error e
                | .ok newDut =>
                    .ok (dictSet dr.1 nv.1 newDut, dictSet dr.2 nv.1 newRef))
    (dut, ref)

/-- The decode stage end to end, from the capture table columns and the
reference skeleton to the returned `(dut_outputs, ref_outputs)` pair
(lines 399-569, with `L = outputs_length`). -/
def decodePipeline (ref : List (String × PyObj))
    (argTypes : List (String × String))
    (cols : List (String × List String))
    (axiFiles : String → List AxiRow) (L : Nat) :
    Except String (List (String × PyObj) × List (String × PyObj)) :=
  match mergeStep ref argTypes cols with
  | .error e => .error e
  | .ok merged =>
      match attachAxiPackets argTypes axiFiles merged ref with
      | .error e => .error e
      | .ok withPackets => trimOutputs argTypes L withPackets ref

/-! ### Statement-support definitions -/

/-- Specification-side packet reassembly, written from the spec's words:
payload values accumulate into a current packet; a set frame flag closes
the current packet and starts a new one; values not closed by a final
frame flag form the incomplete remainder.  (Stated by structural recursion
on the front of the sequence, unlike the accumulator loop in the code.) -/
def packetSpec : List (Int × Bool) → List (List Int) × List Int
  | [] => ([], [])
  | (v, true) :: rest =>
      let r := packetSpec rest
      ([v] :: r.1, r.2)
  | (v, false) :: rest =>
      let r := packetSpec rest
      match r.1 with
      | p :: ps => ((v :: p) :: ps, r.2)
      | [] => ([], v :: r.2)

/-- Prepend already-accumulated payload values to a reassembly result:
they extend the first packet that closes, or the remainder if none does. -/
def absorbPacket (packet : List Int) (r : List (List Int) × List Int) :
    List (List Int) × List Int :=
  match r.1 with
  | [] => ([], packet ++ r.2)
  | p :: ps => ((packet ++ p) :: ps, r.2)

/-- The numeric value of a little-endian decimal digit list. -/
def decVal (ds : List Nat) : Nat := ds.foldr (fun d a => d + 10 * a) 0

/-- A side-file row that parses cleanly: the payload text is the binary
value `pf.1` and the frame flag is present, integer-valued, and truthy
exactly when `pf.2`. -/
def RowParses (row : AxiRow) (pf : Int × Bool) : Prop :=
  pyIntBin? row.tdata = some pf.1 ∧
  ∃ t ft, row.tlast = some t ∧ pyIntDec? t = some ft ∧ (ft ≠ 0 ↔ pf.2 = true)

/-- A side-file row whose payload text is the binary value `p` and whose
frame-flag field is absent. -/
def RowNoFlag (row : AxiRow) (p : Int) : Prop :=
  pyIntBin? row.tdata = some p ∧ row.tlast = none

/-- The cycle count of a recorded trace value: the length of its
`signals` list for an `axi_stream_out` argument, the length of the trace
itself otherwise. -/
def traceLen (argTypes : List (String × String)) (n : String) (v : PyObj) :
    Option Nat :=
  if dictGet? argTypes n = some "axi_stream_out" then
    match v with
    | .pydict vd =>
        match dictGet? vd "signals" with
        | some (.pylist sigs) => some sigs.length
        | _ => none
    | _ => none
  else
    match v with
    | .pylist xs => some xs.length
    | _ => none

/-- A trace value holding at least `L` recorded cycles: either a plain
trace list of length ≥ `L`, or an `axi_stream_out`-style dict whose
`signals` entry is a list of length ≥ `L`. -/
def EntryLenGE (L : Nat) (v : PyObj) : Prop :=
  (∃ xs, v = PyObj.pylist xs ∧ L ≤ xs.length) ∨
  (∃ vd sigs, v = PyObj.pydict vd ∧
    dictGet? vd "signals" = some (PyObj.pylist sigs) ∧ L ≤ sigs.length)

/-- A wrapper assignment with no cast would assign the signal name
directly; this is the shape the specification asserts for width-1 ports
(spec-side definition, for comparison with the generated text). -/
def castFreeAssignment (dir : PortDir) (port_name : String) : String :=
  match dir with
  | .input => "wrapped_" ++ port_name ++ " <= " ++ port_name
  | _ => port_name ++ " <= wrapped_" ++ port_name

/-! ## Lemma toolkit -/

theorem dictGet?_dictSet_self {κ α : Type} [DecidableEq κ]
    (d : List (κ × α)) (k : κ) (v : α) :
    dictGet? (dictSet d k v) k = some v := by
  induction d with
  | nil => simp [dictSet, dictGet?]
  | cons p rest ih =>
      obtain ⟨k₀, v₀⟩ := p
      by_cases h : k₀ = k
      · simp [dictSet, dictGet?, h]
      · simp [dictSet, dictGet?, h, ih]

theorem dictGet?_dictSet_ne {κ α : Type} [DecidableEq κ]
    (d : List (κ × α)) (k k' : κ) (v : α) (h : k' ≠ k) :
    dictGet? (dictSet d k v) k' = dictGet? d k' := by
  induction d with
  | nil => simp [dictSet, dictGet?, Ne.symm h]
  | cons p rest ih =>
      obtain ⟨k₀, v₀⟩ := p
      by_cases h0 : k₀ = k
      · subst h0
        simp [dictSet, dictGet?, Ne.symm h]
      · by_cases h1 : k₀ = k'
        · subst h1
          simp [dictSet, dictGet?, h0]
        · simp [dictSet, dictGet?, h0, h1, ih]

theorem dictGet?_eq_none_of_not_mem {κ α : Type} [DecidableEq κ]
    (d : List (κ × α)) (k : κ) (h : k ∉ d.map Prod.fst) :
    dictGet? d k = none := by
  induction d with
  | nil => rfl
  | cons p rest ih =>
      obtain ⟨k₀, v₀⟩ := p
      simp only [List.map_cons, List.mem_cons, not_or] at h
      have hne : k₀ ≠ k := fun e => h.1 e.symm
      simp [dictGet?, hne, ih h.2]

theorem mem_keys_of_dictGet?_eq_some {κ α : Type} [DecidableEq κ]
    (d : List (κ × α)) (k : κ) (v : α) (h : dictGet? d k = some v) :
    k ∈ d.map Prod.fst := by
  induction d with
  | nil => simp [dictGet?] at h
  | cons p rest ih =>
      obtain ⟨k₀, v₀⟩ := p
      by_cases h0 : k₀ = k
      · simp [h0]
      · simp only [dictGet?, if_neg h0] at h
        simp [ih h]

theorem dictSet_map_fst_of_mem {κ α : Type} [DecidableEq κ]
    (d : List (κ × α)) (k : κ) (v : α) (h : k ∈ d.map Prod.fst) :
    (dictSet d k v).map Prod.fst = d.map Prod.fst := by
  induction d with
  | nil => simp at h
  | cons p rest ih =>
      obtain ⟨k₀, v₀⟩ := p
      by_cases h0 : k₀ = k
      · simp [dictSet, h0]
      · simp only [List.map_cons, List.mem_cons] at h
        have : k ∈ rest.map Prod.fst := by
          rcases h with h | h
          · exact absurd h.symm h0
          · exact h
        simp [dictSet, h0, ih this]

theorem dictSet_map_fst_of_not_mem {κ α : Type} [DecidableEq κ]
    (d : List (κ × α)) (k : κ) (v : α) (h : k ∉ d.map Prod.fst) :
    (dictSet d k v).map Prod.fst = d.map Prod.fst ++ [k] := by
  induction d with
  | nil => simp [dictSet]
  | cons p rest ih =>
      obtain ⟨k₀, v₀⟩ := p
      simp only [List.map_cons, List.mem_cons, not_or] at h
      have hne : k₀ ≠ k := fun e => h.1 e.symm
      simp [dictSet, hne, ih h.2]

theorem mapExcept_ok_length {α β : Type} (f : α → Except String β)
    (l : List α) (l' : List β) (h : mapExcept f l = .ok l') :
    l'.length = l.length := by
  induction l generalizing l' with
  | nil =>
      simp only [mapExcept] at h
      cases h
      rfl
  | cons a rest ih =>
      simp only [mapExcept] at h
      cases hfa : f a with
      | error e => rw [hfa] at h; cases h
      | ok b =>
          rw [hfa] at h
          cases hrest : mapExcept f rest with
          | error e => rw [hrest] at h; cases h
          | ok bs =>
              rw [hrest] at h
              cases h
              simp [ih bs hrest]

theorem mapExcept_ok_get {α β : Type} (f : α → Except String β)
    (l : List α) (l' : List β) (h : mapExcept f l = .ok l')
    (i : Nat) (a : α) (ha : l[i]? = some a) :
    ∃ b, l'[i]? = some b ∧ f a = .ok b := by
  induction l generalizing l' i with
  | nil => simp at ha
  | cons x rest ih =>
      simp only [mapExcept] at h
      cases hfa : f x with
      | error e => rw [hfa] at h; cases h
      | ok b =>
          rw [hfa] at h
          cases hrest : mapExcept f rest with
          | error e => rw [hrest] at h; cases h
          | ok bs =>
              rw [hrest] at h
              cases h
              cases i with
              | zero =>
                  simp only [List.getElem?_cons_zero, Option.some.injEq] at ha
                  subst ha
                  exact ⟨b, by simp, hfa⟩
              | succ j =>
                  simp only [List.getElem?_cons_succ] at ha
                  obtain ⟨c, hc1, hc2⟩ := ih bs hrest j ha
                  exact ⟨c, by simpa using hc1, hc2⟩

/-! ## C2: per-cell decoding -/

/-- C2 counterexample: the cell text `"2"` under `value_kind = bool`
decodes to `True` (Python `bool(int('2'))`), not to the undefined marker,
contradicting the claim that any text other than `"0"`/`"1"` decodes to
undefined. -/
theorem decodeCell_bool_two_counterexample :
    decodeCell "bool" "2" = .pybool true ∧ "2" ≠ "0" ∧ "2" ≠ "1" ∧
      PyObj.pybool true ≠ PyObj.none_ :=
  ⟨rfl, by decide, by decide, fun h => PyObj.noConfusion h⟩

/-- C2 (amended): a `bool` cell is decoded by integer truthiness — any
decimal-integer text gives `True` iff it is nonzero (so `"0"` is false,
`"1"` is true, but e.g. `"2"` is also true), and only non-integer text is
undefined; any other `value_kind` parses the cell as a fixed-width binary
bit pattern of the cell's own width, reinterpreted as unsigned (value in
`[0, 2^len)`) or two's complement signed (value in
`[-2^(len-1), 2^(len-1))`), congruent to the parsed value mod `2^len`;
any parse failure gives the undefined marker, which is a value distinct
from every boolean and every integer. -/
theorem decodeCell_amended
    (ty s0 s1 s2 s3 : String) (w v : Int)
    (hty1 : ty ≠ "bool") (hty2 : ty ≠ "signed")
    (h0 : pyIntDec? s0 = some w)
    (h1 : pyIntDec? s1 = none)
    (h2 : intbvParse? s2 = none)
    (h3 : intbvParse? s3 = some v) :
    decodeCell "bool" "0" = .pybool false ∧
    decodeCell "bool" "1" = .pybool true ∧
    decodeCell "bool" s0 = .pybool (w != 0) ∧
    decodeCell "bool" s1 = .none_ ∧
    decodeCell ty s2 = .none_ ∧
    decodeCell "signed" s2 = .none_ ∧
    (∃ u : Int, decodeCell ty s3 = .pyint u ∧ 0 ≤ u ∧ u < 2 ^ s3.length ∧
       (v - u) % 2 ^ s3.length = 0) ∧
    (∃ u : Int, decodeCell "signed" s3 = .pyint u ∧
       (1 ≤ s3.length →
         -(2 ^ (s3.length - 1)) ≤ u ∧ u < 2 ^ (s3.length - 1)) ∧
       (v - u) % 2 ^ s3.length = 0) ∧
    (∀ b : Bool, PyObj.none_ ≠ .pybool b) ∧
    (∀ z : Int, PyObj.none_ ≠ .pyint z) := by
  have h2n : ∀ n : Nat, (0 : Int) < 2 ^ n := fun n => by positivity
  have humod : ∀ n : Nat, 0 ≤ v % 2 ^ n ∧ v % 2 ^ n < 2 ^ n := fun n =>
    ⟨Int.emod_nonneg v (ne_of_gt (h2n n)), Int.emod_lt_of_pos v (h2n n)⟩
  have hsub : ∀ n : Nat, (v - v % 2 ^ n) % 2 ^ n = 0 := fun n => by
    rw [Int.sub_emod, Int.emod_emod_of_dvd v dvd_rfl, sub_self, Int.zero_emod]
  refine ⟨rfl, rfl, ?_, ?_, ?_, ?_, ?_, ?_, ?_, ?_⟩
  · simp [decodeCell, h0]
  · simp [decodeCell, h1]
  · simp [decodeCell, hty1, h2]
  · simp [decodeCell, h2]
  · refine ⟨v % 2 ^ s3.length, ?_, (humod s3.length).1, (humod s3.length).2,
      hsub s3.length⟩
    simp [decodeCell, hty1, hty2, h3]
  · set n := s3.length with hn
    set u := v % 2 ^ n with hu
    refine ⟨intbvSigned u n, ?_, ?_, ?_⟩
    · simp [decodeCell, h3, intbvSigned]
    · intro hn1
      have hpow : (2 : Int) ^ n = 2 ^ (n - 1) * 2 := by
        rw [← pow_succ]
        congr 1
        omega
      have hp : (0 : Int) < 2 ^ (n - 1) := h2n (n - 1)
      unfold intbvSigned
      by_cases hc : n ≠ 0 ∧ (2 : Int) ^ (n - 1) ≤ u
      · rw [if_pos hc]
        constructor
        · have := hc.2
          linarith [(humod n).1]
        · linarith [(humod n).2]
      · rw [if_neg hc]
        have hn0 : n ≠ 0 := by omega
        have : ¬ (2 : Int) ^ (n - 1) ≤ u := fun hle => hc ⟨hn0, hle⟩
        constructor
        · linarith [(humod n).1]
        · linarith [not_le.mp this]
    · unfold intbvSigned
      by_cases hc : n ≠ 0 ∧ (2 : Int) ^ (n - 1) ≤ u
      · rw [if_pos hc]
        have : v - (u - 2 ^ n) = v - u + 2 ^ n * 1 := by ring
        rw [this, Int.add_mul_emod_self_left, hsub n]
      · rw [if_neg hc]
        exact hsub n
  · intro b h
    exact PyObj.noConfusion h
  · intro z h
    exact PyObj.noConfusion h

/-- C2 witness: the amended theorem applied at concrete cells — `"2"` for
the truthy integer, `"zz"` for a bool parse failure, `"UU"` for a bit
parse failure and `"101"` (value 5) for a successful 3-bit pattern. -/
theorem decodeCell_amended_witness :
    decodeCell "bool" "0" = .pybool false ∧
    decodeCell "bool" "1" = .pybool true ∧
    decodeCell "bool" "2" = .pybool ((2 : Int) != 0) ∧
    decodeCell "bool" "zz" = .none_ ∧
    decodeCell "unsigned" "UU" = .none_ ∧
    decodeCell "signed" "UU" = .none_ ∧
    (∃ u : Int, decodeCell "unsigned" "101" = .pyint u ∧ 0 ≤ u ∧
       u < 2 ^ ("101".length) ∧ ((5 : Int) - u) % 2 ^ ("101".length) = 0) ∧
    (∃ u : Int, decodeCell "signed" "101" = .pyint u ∧
       (1 ≤ "101".length →
         -(2 ^ ("101".length - 1)) ≤ u ∧ u < 2 ^ ("101".length - 1)) ∧
       ((5 : Int) - u) % 2 ^ ("101".length) = 0) ∧
    (∀ b : Bool, PyObj.none_ ≠ .pybool b) ∧
    (∀ z : Int, PyObj.none_ ≠ .pyint z) :=
  decodeCell_amended "unsigned" "2" "zz" "UU" "101" 2 5
    (by decide) (by decide) rfl rfl rfl rfl

/-! ## C5 and C10: packet reassembly -/

theorem absorbPacket_nil (r : List (List Int) × List Int) :
    absorbPacket [] r = r := by
  obtain ⟨ps, inc⟩ := r
  cases ps <;> simp [absorbPacket]

theorem axiPacketFold_spec (rows : List AxiRow) (pfs : List (Int × Bool))
    (h : List.Forall₂ RowParses rows pfs) (P : List (List Int))
    (cur : List Int) :
    axiPacketFold rows P cur =
      .ok (P ++ (absorbPacket cur (packetSpec pfs)).1,
           (absorbPacket cur (packetSpec pfs)).2) := by
  induction h generalizing P cur with
  | nil => simp [axiPacketFold, packetSpec, absorbPacket]
  | cons hrow hrest ih =>
      rename_i row pf rows' pfs'
      obtain ⟨p, f⟩ := pf
      obtain ⟨htd, t, ft, htl, hft, hiff⟩ := hrow
      cases f with
      | true =>
          have hne : ft ≠ 0 := hiff.mpr rfl
          simp only [axiPacketFold, htd, htl, hft]
          rw [if_pos hne, ih, absorbPacket_nil]
          simp [packetSpec, absorbPacket, List.append_assoc]
      | false =>
          have hz : ft = 0 := by
            by_contra hne
            exact Bool.noConfusion (hiff.mp hne)
          subst hz
          simp only [axiPacketFold, htd, htl, hft]
          rw [if_neg (by simp), ih]
          simp only [packetSpec]
          cases hps : (packetSpec pfs').1 <;>
            simp [absorbPacket, hps, List.append_assoc]

/-- C5: packet reassembly refines the specification recursion — for a
side file whose rows all parse (payload a binary value, frame flag a
present integer), the decoder returns exactly the packets obtained by
accumulating payloads and closing a packet on each truthy frame flag,
with the unclosed tail as `incomplete_packet`, and raises nothing. -/
theorem axiPacketDecode_refines_packetSpec (rows : List AxiRow)
    (pfs : List (Int × Bool)) (h : List.Forall₂ RowParses rows pfs) :
    axiPacketDecode rows = .ok (packetSpec pfs) := by
  rw [axiPacketDecode, axiPacketFold_spec rows pfs h [] [], absorbPacket_nil]
  simp

/-- C5 witness: the two examples from the claim — payloads `[1,2,3,4,5]`
with flags `[0,0,1,0,1]` give packets `[[1,2,3],[4,5]]` and an empty
remainder; with flags `[0,0,1,0,0]` they give `[[1,2,3]]` and remainder
`[4,5]`. -/
theorem axiPacketDecode_refines_packetSpec_witness :
    axiPacketDecode
        [⟨"1", some "0"⟩, ⟨"10", some "0"⟩, ⟨"11", some "1"⟩,
         ⟨"100", some "0"⟩, ⟨"101", some "1"⟩] =
      .ok ([[1, 2, 3], [4, 5]], []) ∧
    axiPacketDecode
        [⟨"1", some "0"⟩, ⟨"10", some "0"⟩, ⟨"11", some "1"⟩,
         ⟨"100", some "0"⟩, ⟨"101", some "0"⟩] =
      .ok ([[1, 2, 3]], [4, 5]) := by
  have hrow : ∀ (td fl : String) (p : Int) (ft : Int) (f : Bool),
      pyIntBin? td = some p → pyIntDec? fl = some ft → (ft ≠ 0 ↔ f = true) →
      RowParses ⟨td, some fl⟩ (p, f) :=
    fun td fl p ft f h1 h2 h3 => ⟨h1, fl, ft, rfl, h2, h3⟩
  constructor
  · have h1 := axiPacketDecode_refines_packetSpec
      [⟨"1", some "0"⟩, ⟨"10", some "0"⟩, ⟨"11", some "1"⟩,
       ⟨"100", some "0"⟩, ⟨"101", some "1"⟩]
      [(1, false), (2, false), (3, true), (4, false), (5, true)]
      (by
        refine .cons (hrow _ _ _ 0 _ rfl rfl (by simp)) ?_
        refine .cons (hrow _ _ _ 0 _ rfl rfl (by simp)) ?_
        refine .cons (hrow _ _ _ 1 _ rfl rfl (by simp)) ?_
        refine .cons (hrow _ _ _ 0 _ rfl rfl (by simp)) ?_
        exact .cons (hrow _ _ _ 1 _ rfl rfl (by simp)) .nil)
    simpa [packetSpec] using h1
  · have h2 := axiPacketDecode_refines_packetSpec
      [⟨"1", some "0"⟩, ⟨"10", some "0"⟩, ⟨"11", some "1"⟩,
       ⟨"100", some "0"⟩, ⟨"101", some "0"⟩]
      [(1, false), (2, false), (3, true), (4, false), (5, false)]
      (by
        refine .cons (hrow _ _ _ 0 _ rfl rfl (by simp)) ?_
        refine .cons (hrow _ _ _ 0 _ rfl rfl (by simp)) ?_
        refine .cons (hrow _ _ _ 1 _ rfl rfl (by simp)) ?_
        refine .cons (hrow _ _ _ 0 _ rfl rfl (by simp)) ?_
        exact .cons (hrow _ _ _ 0 _ rfl rfl (by simp)) .nil)
    simpa [packetSpec] using h2

theorem axiPacketFold_append (rs rs' : List AxiRow) (P : List (List Int))
    (cur : List Int) :
    axiPacketFold (rs ++ rs') P cur =
      match axiPacketFold rs P cur with
      | .error e => .error e
      | .ok r => axiPacketFold rs' r.1 r.2 := by
  induction rs generalizing P cur with
  | nil => simp [axiPacketFold]
  | cons row rest ih =>
      simp only [List.cons_append, axiPacketFold]
      cases htd : pyIntBin? row.tdata with
      | none => rfl
      | some v =>
          dsimp only
          cases htl : row.tlast with
          | none => exact ih P (cur ++ [v])
          | some t =>
              dsimp only
              cases hft : pyIntDec? t with
              | none => rfl
              | some f =>
                  dsimp only
                  by_cases hz : f ≠ 0
                  · rw [if_pos hz, if_pos hz]
                    exact ih (P ++ [cur ++ [v]]) []
                  · rw [if_neg hz, if_neg hz]
                    exact ih P (cur ++ [v])

theorem axiPacketFold_noflag (rows : List AxiRow) (ps : List Int)
    (h : List.Forall₂ RowNoFlag rows ps) (P : List (List Int))
    (cur : List Int) :
    axiPacketFold rows P cur = .ok (P, cur ++ ps) := by
  induction h generalizing cur with
  | nil => simp [axiPacketFold]
  | cons hrow hrest ih =>
      rename_i row p rows' ps'
      obtain ⟨htd, htl⟩ := hrow
      simp only [axiPacketFold, htd, htl]
      rw [ih (cur ++ [p])]
      simp

/-- C10: a row with no frame-flag field raises nothing and never closes
the current packet — appending such a row to any successfully decoded
side file keeps the packets unchanged and appends the payload to the
incomplete remainder; consequently a side file with no frame-flag column
at all yields no complete packet and every payload in the remainder. -/
theorem axiPacketDecode_missing_tlast (rows : List AxiRow)
    (P : List (List Int)) (R : List Int) (td : String) (v : Int)
    (ps : List Int) (rows' : List AxiRow)
    (hok : axiPacketDecode rows = .ok (P, R))
    (htd : pyIntBin? td = some v)
    (hnoflag : List.Forall₂ RowNoFlag rows' ps) :
    axiPacketDecode (rows ++ [⟨td, none⟩]) = .ok (P, R ++ [v]) ∧
    axiPacketDecode rows' = .ok ([], ps) := by
  constructor
  · rw [axiPacketDecode, axiPacketFold_append]
    rw [axiPacketDecode] at hok
    rw [hok]
    simp [axiPacketFold, htd]
  · rw [axiPacketDecode, axiPacketFold_noflag rows' ps hnoflag]
    simp

/-- C10 witness: appending a flagless row with payload `110` (6) to the
decoded file `[1,2,3]`-with-closing-flag keeps the packet `[1,2,3]` and
moves 6 to the remainder; a file of two flagless rows decodes to no
packets with both payloads in the remainder. -/
theorem axiPacketDecode_missing_tlast_witness :
    axiPacketDecode
        [⟨"1", some "0"⟩, ⟨"10", some "0"⟩, ⟨"11", some "1"⟩,
         ⟨"110", none⟩] = .ok ([[1, 2, 3]], [6]) ∧
    axiPacketDecode [⟨"1", none⟩, ⟨"10", none⟩] = .ok ([], [1, 2]) :=
  axiPacketDecode_missing_tlast
    [⟨"1", some "0"⟩, ⟨"10", some "0"⟩, ⟨"11", some "1"⟩]
    ([[1, 2, 3]] : List (List Int)) ([] : List Int) "110" 6
    ([1, 2] : List Int) [⟨"1", none⟩, ⟨"10", none⟩]
    rfl rfl (.cons ⟨rfl, rfl⟩ (.cons ⟨rfl, rfl⟩ .nil))

/-! ## Decimal rendering: correctness and injectivity -/

theorem natDigitsRun_fuel :
    ∀ (n fuel : Nat), n ≤ fuel → natDigitsRun fuel n = natDigits n := by
  intro n
  induction n using Nat.strong_induction_on with
  | _ n ih =>
      intro fuel hf
      cases n with
      | zero => cases fuel <;> rfl
      | succ m =>
          cases fuel with
          | zero => omega
          | succ f =>
              have hdiv : (m + 1) / 10 < m + 1 :=
                Nat.div_lt_self (Nat.succ_pos m) (by norm_num)
              simp only [natDigits, natDigitsRun]
              rw [ih ((m + 1) / 10) hdiv f (by omega),
                  ih ((m + 1) / 10) hdiv m (by omega)]

theorem decVal_natDigits (n : Nat) : decVal (natDigits n) = n := by
  induction n using Nat.strong_induction_on with
  | _ n ih =>
      cases n with
      | zero => rfl
      | succ m =>
          have hdiv : (m + 1) / 10 < m + 1 :=
            Nat.div_lt_self (Nat.succ_pos m) (by norm_num)
          have h2 := ih ((m + 1) / 10) hdiv
          simp only [natDigits, natDigitsRun]
          rw [natDigitsRun_fuel ((m + 1) / 10) m (by omega)]
          simp only [decVal, List.foldr] at h2 ⊢
          rw [h2]
          exact Nat.mod_add_div (m + 1) 10

theorem natDigits_inj (a b : Nat) (h : natDigits a = natDigits b) : a = b := by
  rw [← decVal_natDigits a, ← decVal_natDigits b, h]

theorem natDigits_lt_ten (n : Nat) : ∀ d ∈ natDigits n, d < 10 := by
  induction n using Nat.strong_induction_on with
  | _ n ih =>
      cases n with
      | zero => intro d hd; simp [natDigits, natDigitsRun] at hd
      | succ m =>
          have hdiv : (m + 1) / 10 < m + 1 :=
            Nat.div_lt_self (Nat.succ_pos m) (by norm_num)
          intro d hd
          simp only [natDigits, natDigitsRun] at hd
          rw [natDigitsRun_fuel ((m + 1) / 10) m (by omega)] at hd
          rcases List.mem_cons.mp hd with h1 | h1
          · subst h1
            exact Nat.mod_lt _ (by norm_num)
          · exact ih _ hdiv d h1

theorem decDigitChar_inj :
    ∀ a, a < 10 → ∀ b, b < 10 → decDigitChar a = decDigitChar b → a = b := by
  decide

theorem map_decDigitChar_inj :
    ∀ (l1 l2 : List Nat), (∀ d ∈ l1, d < 10) → (∀ d ∈ l2, d < 10) →
      l1.map decDigitChar = l2.map decDigitChar → l1 = l2 := by
  intro l1
  induction l1 with
  | nil =>
      intro l2 _ _ h
      cases l2 with
      | nil => rfl
      | cons e es => simp at h
  | cons d ds ih =>
      intro l2 h1 h2 h
      cases l2 with
      | nil => simp at h
      | cons e es =>
          simp only [List.map_cons, List.cons.injEq] at h
          have hd : d = e :=
            decDigitChar_inj d (h1 d (by simp)) e (h2 e (by simp)) h.1
          rw [hd, ih es (fun x hx => h1 x (by simp [hx]))
              (fun x hx => h2 x (by simp [hx])) h.2]

theorem natDecimal_eq_zero_str (b : Nat) (h : natDecimal b = "0") : b = 0 := by
  by_contra hb
  unfold natDecimal at h
  rw [if_neg hb] at h
  have hl : (natDigits b).reverse.map decDigitChar = ['0'] := by
    have := congrArg String.data h
    simpa using this
  have hrev : (natDigits b).reverse = [0] := by
    cases hr : (natDigits b).reverse with
    | nil => rw [hr] at hl; simp at hl
    | cons d ds =>
        rw [hr] at hl
        simp only [List.map_cons, List.cons.injEq] at hl
        have hds : ds = [] := by
          cases ds with
          | nil => rfl
          | cons x xs => simp at hl
        have hdm : d ∈ natDigits b :=
          List.mem_reverse.mp (by rw [hr]; simp)
        have hd0 : d = 0 :=
          decDigitChar_inj d (natDigits_lt_ten b d hdm) 0 (by norm_num)
            (by rw [hl.1]; rfl)
        rw [hds, hd0]
  have hdig : natDigits b = [0] := by
    have := congrArg List.reverse hrev
    simpa using this
  have hbv := decVal_natDigits b
  rw [hdig] at hbv
  have : decVal [0] = 0 := rfl
  omega

theorem natDecimal_inj (a b : Nat) (h : natDecimal a = natDecimal b) :
    a = b := by
  by_cases ha : a = 0
  · subst ha
    exact (natDecimal_eq_zero_str b (by rw [← h]; rfl)).symm
  · by_cases hb : b = 0
    · subst hb
      exact absurd (natDecimal_eq_zero_str a (by rw [h]; rfl)) ha
    · unfold natDecimal at h
      rw [if_neg ha, if_neg hb] at h
      have hl := congrArg String.data h
      simp only [] at hl
      have hrev := map_decDigitChar_inj _ _
        (fun d hd => natDigits_lt_ten a d (List.mem_reverse.mp hd))
        (fun d hd => natDigits_lt_ten b d (List.mem_reverse.mp hd)) hl
      exact natDigits_inj a b (List.reverse_injective hrev)

theorem instNameAppend_inj (e : String) (i j : Nat)
    (h : e ++ "_" ++ natDecimal i = e ++ "_" ++ natDecimal j) : i = j := by
  apply natDecimal_inj
  have hd := congrArg String.data h
  rw [String.data_append, String.data_append] at hd
  exact String.ext (List.append_cancel_left hd)

/-! ## C9: instance numbering -/

theorem runVhdlCalls_names (ip : VivadoIP)
    (ovs : List (List (String × String))) :
    (runVhdlCalls ip ovs).1 =
      (List.range ovs.length).map
        (fun i => ip.entity_name ++ "_" ++ natDecimal (ip.vhdl_instance_idx + i)) ∧
    (runVhdlCalls ip ovs).2.vhdl_instance_idx =
      ip.vhdl_instance_idx + ovs.length := by
  induction ovs generalizing ip with
  | nil => simp [runVhdlCalls]
  | cons ov rest ih =>
      obtain ⟨h1, h2⟩ := ih (getVhdlInstance ip ov).2
      have h3 : (getVhdlInstance ip ov).2.entity_name = ip.entity_name := rfl
      have h4 : (getVhdlInstance ip ov).2.vhdl_instance_idx =
          ip.vhdl_instance_idx + 1 := rfl
      constructor
      · show vhdlInstanceName ip ::
            (runVhdlCalls (getVhdlInstance ip ov).2 rest).1 = _
        rw [h1, List.length_cons, List.range_succ_eq_map, List.map_cons,
            List.map_map]
        have hhead : vhdlInstanceName ip =
            ip.entity_name ++ "_" ++ natDecimal (ip.vhdl_instance_idx + 0) := by
          rw [Nat.add_zero]
          rfl
        rw [hhead]
        congr 1
        apply List.map_congr_left
        intro i _
        simp only [Function.comp_apply, h3, h4]
        congr 2
        omega
      · show (runVhdlCalls (getVhdlInstance ip ov).2 rest).2.vhdl_instance_idx = _
        rw [h2, h4, List.length_cons]
        omega

theorem runVerilogCalls_names (ip : VivadoIP)
    (ovs : List (List (String × String))) :
    (runVerilogCalls ip ovs).1 =
      (List.range ovs.length).map
        (fun i =>
          ip.entity_name ++ "_" ++ natDecimal (ip.verilog_instance_idx + i)) ∧
    (runVerilogCalls ip ovs).2.verilog_instance_idx =
      ip.verilog_instance_idx + ovs.length := by
  induction ovs generalizing ip with
  | nil => simp [runVerilogCalls]
  | cons ov rest ih =>
      obtain ⟨h1, h2⟩ := ih (getVerilogInstance ip ov).2
      have h3 : (getVerilogInstance ip ov).2.entity_name = ip.entity_name := rfl
      have h4 : (getVerilogInstance ip ov).2.verilog_instance_idx =
          ip.verilog_instance_idx + 1 := rfl
      constructor
      · show verilogInstanceName ip ::
            (runVerilogCalls (getVerilogInstance ip ov).2 rest).1 = _
        rw [h1, List.length_cons, List.range_succ_eq_map, List.map_cons,
            List.map_map]
        have hhead : verilogInstanceName ip =
            ip.entity_name ++ "_" ++
              natDecimal (ip.verilog_instance_idx + 0) := by
          rw [Nat.add_zero]
          rfl
        rw [hhead]
        congr 1
        apply List.map_congr_left
        intro i _
        simp only [Function.comp_apply, h3, h4]
        congr 2
        omega
      · show (runVerilogCalls
            (getVerilogInstance ip ov).2 rest).2.verilog_instance_idx = _
        rw [h2, h4, List.length_cons]
        omega

/-- C9 counterexample: from one freshly constructed descriptor, creating
one VHDL instance and then one Verilog instance yields two instances
that share the name `vector_or_0`, because the two language variants keep
independent counters both starting at 0 — refuting "no two instances
created from the same descriptor share a name" for the mixed-variant
reading. -/
theorem mixed_variant_name_collision :
    vhdlInstanceName
        (vivadoIPInit "vector_or" [] "util_vector_logic" "xilinx.com" "ip"
          "2.0" []) = "vector_or_0" ∧
    verilogInstanceName
        (getVhdlInstance
          (vivadoIPInit "vector_or" [] "util_vector_logic" "xilinx.com" "ip"
            "2.0" []) []).2 = "vector_or_0" := by
  constructor <;> decide

/-- C9 (amended): within one language variant, successive instance
creations on a fresh descriptor are numbered 0, 1, 2, ... — strictly
increasing and never repeating — independently of the override
dictionaries passed, and the names generated by one variant are pairwise
distinct; the VHDL and Verilog variants keep independent counters, so
only instances of the same variant are guaranteed distinct names. -/
theorem instance_numbering_amended (entity ip_name vendor library version :
    String) (ports : List (String × PortSpec))
    (config : List (String × String)) (ip0 : VivadoIP)
    (ovs ovs' : List (List (String × String)))
    (hip0 : ip0 = vivadoIPInit entity ports ip_name vendor library version
      config) (hlen : ovs.length = ovs'.length) :
    (runVhdlCalls ip0 ovs).1 =
      (List.range ovs.length).map (fun i => entity ++ "_" ++ natDecimal i) ∧
    (runVerilogCalls ip0 ovs).1 =
      (List.range ovs.length).map (fun i => entity ++ "_" ++ natDecimal i) ∧
    (runVhdlCalls ip0 ovs).1 = (runVhdlCalls ip0 ovs').1 ∧
    (runVhdlCalls ip0 ovs).1.Nodup ∧
    (runVerilogCalls ip0 ovs).1.Nodup := by
  subst hip0
  obtain ⟨hv1, _⟩ := runVhdlCalls_names
    (vivadoIPInit entity ports ip_name vendor library version config) ovs
  obtain ⟨hv2, _⟩ := runVhdlCalls_names
    (vivadoIPInit entity ports ip_name vendor library version config) ovs'
  obtain ⟨hg1, _⟩ := runVerilogCalls_names
    (vivadoIPInit entity ports ip_name vendor library version config) ovs
  simp only [vivadoIPInit, Nat.zero_add] at hv1 hv2 hg1 ⊢
  have hnodup : ((List.range ovs.length).map
      (fun i => entity ++ "_" ++ natDecimal i)).Nodup := by
    apply List.Nodup.map_on
    · intro x _ y _ hxy
      exact instNameAppend_inj entity x y hxy
    · exact List.nodup_range ovs.length
  refine ⟨?_, ?_, ?_, ?_, ?_⟩
  · rw [hv1]
  · rw [hg1]
  · rw [hv1, hv2, hlen]
  · rw [hv1]
    exact hnodup
  · rw [hg1]
    exact hnodup

/-- C9 witness: three VHDL calls on a fresh descriptor, with different
override dictionaries, against three calls with empty overrides. -/
theorem instance_numbering_amended_witness :
    (runVhdlCalls
        (vivadoIPInit "e" [("A", ⟨8, false, .input, "Op1"⟩)] "ip" "v" "l"
          "1" []) [[("A", "x")], [], [("A", "y")]]).1 =
      (List.range 3).map (fun i => "e" ++ "_" ++ natDecimal i) ∧
    (runVerilogCalls
        (vivadoIPInit "e" [("A", ⟨8, false, .input, "Op1"⟩)] "ip" "v" "l"
          "1" []) [[("A", "x")], [], [("A", "y")]]).1 =
      (List.range 3).map (fun i => "e" ++ "_" ++ natDecimal i) ∧
    (runVhdlCalls
        (vivadoIPInit "e" [("A", ⟨8, false, .input, "Op1"⟩)] "ip" "v" "l"
          "1" []) [[("A", "x")], [], [("A", "y")]]).1 =
      (runVhdlCalls
        (vivadoIPInit "e" [("A", ⟨8, false, .input, "Op1"⟩)] "ip" "v" "l"
          "1" []) [[], [], []]).1 ∧
    (runVhdlCalls
        (vivadoIPInit "e" [("A", ⟨8, false, .input, "Op1"⟩)] "ip" "v" "l"
          "1" []) [[("A", "x")], [], [("A", "y")]]).1.Nodup ∧
    (runVerilogCalls
        (vivadoIPInit "e" [("A", ⟨8, false, .input, "Op1"⟩)] "ip" "v" "l"
          "1" []) [[("A", "x")], [], [("A", "y")]]).1.Nodup :=
  instance_numbering_amended "e" "ip" "v" "l" "1"
    [("A", ⟨8, false, .input, "Op1"⟩)] [] _
    [[("A", "x")], [], [("A", "y")]] [[], [], []] rfl rfl

/-! ## C6: descriptor validation -/

theorem wrapperPortStrings_ok_of_dir (name : String) (p : PortSpec)
    (h : p.direction = PortDir.input ∨ p.direction = PortDir.output) :
    ∃ line, wrapperPortStrings name p = .ok line := by
  cases hres : wrapperPortStrings name p with
  | ok line => exact ⟨line, rfl⟩
  | error e =>
      exfalso
      rcases h with h | h <;>
      · simp only [wrapperPortStrings, h] at hres
        exact Except.noConfusion hres

theorem writeVhdlWrapperLines_ok (ports : List (String × PortSpec))
    (h : ∀ q ∈ ports,
      q.2.direction = PortDir.input ∨ q.2.direction = PortDir.output) :
    ∃ lines, writeVhdlWrapperLines ports = .ok lines := by
  induction ports with
  | nil => exact ⟨[], rfl⟩
  | cons p rest ih =>
      obtain ⟨lines, hl⟩ := ih (fun q hq => h q (by simp [hq]))
      obtain ⟨line, hline⟩ :=
        wrapperPortStrings_ok_of_dir p.1 p.2 (h p (by simp))
      refine ⟨line :: lines, ?_⟩
      simp only [writeVhdlWrapperLines, mapExcept, hline]
      simp only [writeVhdlWrapperLines] at hl
      rw [hl]

/-- C6 counterexample: constructing a descriptor whose only port has
width 0 and an unrecognized direction succeeds and returns the fully
populated descriptor — no validation of any kind happens at construction
time, and no `ConfigurationError` exists anywhere in the code. -/
theorem vivadoIPInit_no_validation :
    vivadoIPInit "e" [("p", ⟨0, false, .other "bad", "P"⟩)] "ip" "v" "l"
        "1" [] =
      { entity_name := "e", ip_name := "ip", module_name := "ip_e",
        ports := [("p", ⟨0, false, .other "bad", "P"⟩)],
        vendor := "v", library := "l", version := "1", config := [],
        vhdl_instance_idx := 0, verilog_instance_idx := 0 } := by
  decide

/-- C6 (amended): constructing a descriptor performs no validation and
always produces the descriptor with the given attributes; a port width
below 1 is never rejected at any stage (wrapper generation succeeds for
every width, including 0, whenever all directions are recognized); an
unrecognized direction is only detected later, when the VHDL wrapper is
written, and surfaces as `ValueError` — not as a `ConfigurationError`,
which the code never defines. -/
theorem describe_component_amended (entity_name ip_name vendor library
    version name tag : String) (ports : List (String × PortSpec))
    (config : List (String × String)) (p : PortSpec)
    (hdirs : ∀ q ∈ ports,
      q.2.direction = PortDir.input ∨ q.2.direction = PortDir.output)
    (hother : p.direction = PortDir.other tag) :
    (vivadoIPInit entity_name ports ip_name vendor library version
      config).ports = ports ∧
    (vivadoIPInit entity_name ports ip_name vendor library version
      config).module_name = ip_name ++ "_" ++ entity_name ∧
    (∃ lines, writeVhdlWrapperLines ports = .ok lines) ∧
    wrapperPortStrings name p = .error "ValueError: Unsupported direction" := by
  refine ⟨rfl, rfl, writeVhdlWrapperLines_ok ports hdirs, ?_⟩
  simp only [wrapperPortStrings, hother]

/-- C6 witness: a single width-0 input port passes wrapper generation,
and a port with direction tagged `"bad"` is rejected there with
`ValueError`. -/
theorem describe_component_amended_witness :
    (vivadoIPInit "e" [("p", ⟨0, false, .input, "P"⟩)] "ip" "v" "l" "1"
      []).ports = [("p", ⟨0, false, .input, "P"⟩)] ∧
    (vivadoIPInit "e" [("p", ⟨0, false, .input, "P"⟩)] "ip" "v" "l" "1"
      []).module_name = "ip" ++ "_" ++ "e" ∧
    (∃ lines,
      writeVhdlWrapperLines [("p", ⟨0, false, .input, "P"⟩)] = .ok lines) ∧
    wrapperPortStrings "q" ⟨4, false, .other "bad", "Q"⟩ =
      .error "ValueError: Unsupported direction" :=
  describe_component_amended "e" "ip" "v" "l" "1" "q" "bad"
    [("p", ⟨0, false, .input, "P"⟩)] [] ⟨4, false, .other "bad", "Q"⟩
    (fun q hq => by
      rw [List.mem_singleton] at hq
      subst hq
      exact Or.inl rfl) rfl

/-! ## C7: unknown name overrides -/

/-- C7: `get_vhdl_instance` and `get_verilog_instance` silently ignore
every override key that is not a declared port name — the result is
byte-for-byte the result of a call with no overrides at all, and no
exception is raised, although the method's own docstring promises a
`ValueError` for undeclared keys. -/
theorem name_overrides_silently_ignored (ip : VivadoIP)
    (ovs : List (String × String))
    (h : ∀ kv ∈ ovs, kv.1 ∉ ip.ports.map Prod.fst) :
    getVhdlInstance ip ovs = getVhdlInstance ip [] ∧
    getVerilogInstance ip ovs = getVerilogInstance ip [] := by
  have hov : ∀ k, k ∈ ip.ports.map Prod.fst → dictGet? ovs k = none := by
    intro k hk
    cases hg : dictGet? ovs k with
    | none => rfl
    | some v =>
        exfalso
        have hmem := mem_keys_of_dictGet?_eq_some ovs k v hg
        obtain ⟨kv, hkv, hfst⟩ := List.mem_map.mp hmem
        exact h kv hkv (hfst ▸ hk)
  constructor
  · have hmaps : ip.ports.map (fun p =>
        dotToUnderscore p.1 ++ "=>" ++
          ("$\x7b" ++ dotToUnderscore
            (match dictGet? ovs p.1 with
             | some v => v
             | none => p.1) ++ "\x7d")) =
      ip.ports.map (fun p =>
        dotToUnderscore p.1 ++ "=>" ++
          ("$\x7b" ++ dotToUnderscore
            (match dictGet? ([] : List (String × String)) p.1 with
             | some v => v
             | none => p.1) ++ "\x7d")) := by
      apply List.map_congr_left
      intro p hp
      rw [hov p.1 (List.mem_map.mpr ⟨p, hp, rfl⟩)]
      rfl
    unfold getVhdlInstance
    rw [hmaps]
  · have hmaps : ip.ports.map (fun p =>
        "." ++ p.2.ipMapping ++ "(" ++
          ("$\x7b" ++
            (match dictGet? ovs p.1 with
             | some v => v
             | none => p.1) ++ "\x7d") ++ ")") =
      ip.ports.map (fun p =>
        "." ++ p.2.ipMapping ++ "(" ++
          ("$\x7b" ++
            (match dictGet? ([] : List (String × String)) p.1 with
             | some v => v
             | none => p.1) ++ "\x7d") ++ ")") := by
      apply List.map_congr_left
      intro p hp
      rw [hov p.1 (List.mem_map.mpr ⟨p, hp, rfl⟩)]
      rfl
    unfold getVerilogInstance
    rw [hmaps]

/-- C7 witness: overriding the undeclared port name `B` on a descriptor
whose only port is `A` produces exactly the no-override instantiation,
with no error. -/
theorem name_overrides_silently_ignored_witness :
    getVhdlInstance
        (vivadoIPInit "e" [("A", ⟨8, false, .input, "Op1"⟩)] "ip" "v" "l"
          "1" []) [("B", "sig")] =
      getVhdlInstance
        (vivadoIPInit "e" [("A", ⟨8, false, .input, "Op1"⟩)] "ip" "v" "l"
          "1" []) [] ∧
    getVerilogInstance
        (vivadoIPInit "e" [("A", ⟨8, false, .input, "Op1"⟩)] "ip" "v" "l"
          "1" []) [("B", "sig")] =
      getVerilogInstance
        (vivadoIPInit "e" [("A", ⟨8, false, .input, "Op1"⟩)] "ip" "v" "l"
          "1" []) [] :=
  name_overrides_silently_ignored
    (vivadoIPInit "e" [("A", ⟨8, false, .input, "Op1"⟩)] "ip" "v" "l" "1"
      []) [("B", "sig")] (by decide)

/-! ## C8: wrapper casts -/

/-- C8 counterexample: for a width-1 input port the generated assignment
is `wrapped_p <= std_logic(p)` — it still wraps the signal in a type
conversion, whereas the claim says no cast is emitted for width-1 ports
(the cast-free assignment would be `wrapped_p <= p`). -/
theorem width_one_cast_emitted :
    wrapperPortStrings "p" ⟨1, false, .input, "P"⟩ =
      .ok { entityPort := "p: in std_logic",
            wrappedSignal := "signal wrapped_p: std_logic",
            assignment := "wrapped_p <= std_logic(p)",
            ipComponentPort := "P: in std_logic",
            ipPortMapping := "P => wrapped_p" } ∧
    "wrapped_p <= std_logic(p)" ≠ castFreeAssignment .input "p" := by
  constructor
  · rfl
  · decide

/-- C8 (amended): for every port a raw boundary signal and a
direction-appropriate conversion assignment are emitted.  When width > 1
the boundary signal is a `std_logic_vector` and the conversion casts
between the caller's `signed`/`unsigned` representation and the raw
vector (caller→raw before the boundary for inputs, raw→caller after it
for outputs).  When width ≤ 1 both types coincide as `std_logic`, but the
assignment still applies the (identity) conversion `std_logic(...)` — it
is not the cast-free assignment. -/
theorem wrapper_cast_amended (name : String) (p : PortSpec) :
    (1 < p.width → p.direction = PortDir.input →
      ∃ line, wrapperPortStrings name p = .ok line ∧
        line.wrappedSignal = "signal wrapped_" ++ name ++ ": " ++
          "std_logic_vector" ++
          ("(" ++ natDecimal (p.width - 1) ++ " downto 0)") ∧
        line.assignment = "wrapped_" ++ name ++ " <= " ++
          "std_logic_vector" ++ "(" ++ name ++ ")") ∧
    (1 < p.width → p.direction = PortDir.output →
      ∃ line, wrapperPortStrings name p = .ok line ∧
        line.wrappedSignal = "signal wrapped_" ++ name ++ ": " ++
          "std_logic_vector" ++
          ("(" ++ natDecimal (p.width - 1) ++ " downto 0)") ∧
        line.assignment = name ++ " <= " ++
          (if p.minNegative then "signed" else "unsigned") ++
          "(wrapped_" ++ name ++ ")") ∧
    (p.width ≤ 1 → p.direction = PortDir.input →
      ∃ line, wrapperPortStrings name p = .ok line ∧
        line.wrappedSignal =
          "signal wrapped_" ++ name ++ ": " ++ "std_logic" ∧
        line.assignment =
          "wrapped_" ++ name ++ " <= " ++ "std_logic" ++ "(" ++ name ++ ")" ∧
        line.assignment ≠ castFreeAssignment .input name) ∧
    (p.width ≤ 1 → p.direction = PortDir.output →
      ∃ line, wrapperPortStrings name p = .ok line ∧
        line.wrappedSignal =
          "signal wrapped_" ++ name ++ ": " ++ "std_logic" ∧
        line.assignment =
          name ++ " <= " ++ "std_logic" ++ "(wrapped_" ++ name ++ ")" ∧
        line.assignment ≠ castFreeAssignment .output name) := by
  have hlen : ∀ (a b : String), (a ++ b).length = a.length + b.length :=
    String.length_append
  refine ⟨?_, ?_, ?_, ?_⟩
  · intro hw hd
    cases hres : wrapperPortStrings name p with
    | error e =>
        exfalso
        simp only [wrapperPortStrings, hd] at hres
        exact Except.noConfusion hres
    | ok line =>
        refine ⟨line, rfl, ?_, ?_⟩ <;>
        · simp only [wrapperPortStrings, hd, if_pos hw,
            Except.ok.injEq] at hres
          subst hres
          rfl
  · intro hw hd
    cases hres : wrapperPortStrings name p with
    | error e =>
        exfalso
        simp only [wrapperPortStrings, hd] at hres
        exact Except.noConfusion hres
    | ok line =>
        refine ⟨line, rfl, ?_, ?_⟩ <;>
        · simp only [wrapperPortStrings, hd, if_pos hw,
            Except.ok.injEq] at hres
          subst hres
          rfl
  · intro hw hd
    have hw1 : ¬ 1 < p.width := by omega
    cases hres : wrapperPortStrings name p with
    | error e =>
        exfalso
        simp only [wrapperPortStrings, hd] at hres
        exact Except.noConfusion hres
    | ok line =>
        simp only [wrapperPortStrings, hd, if_neg hw1,
          Except.ok.injEq] at hres
        subst hres
        refine ⟨_, rfl, String.append_empty _, rfl, ?_⟩
        intro he
        have hl := congrArg String.length he
        simp only [castFreeAssignment, hlen] at hl
        have e1 : "wrapped_".length = 8 := rfl
        have e2 : " <= ".length = 4 := rfl
        have e3 : "std_logic".length = 9 := rfl
        have e4 : "(".length = 1 := rfl
        have e5 : ")".length = 1 := rfl
        omega
  · intro hw hd
    have hw1 : ¬ 1 < p.width := by omega
    cases hres : wrapperPortStrings name p with
    | error e =>
        exfalso
        simp only [wrapperPortStrings, hd] at hres
        exact Except.noConfusion hres
    | ok line =>
        simp only [wrapperPortStrings, hd, if_neg hw1,
          Except.ok.injEq] at hres
        subst hres
        refine ⟨_, rfl, String.append_empty _, rfl, ?_⟩
        intro he
        have hcf : castFreeAssignment .output name =
            name ++ " <= wrapped_" ++ name := rfl
        rw [hcf] at he
        have hl := congrArg String.length he
        simp only [hlen] at hl
        have e1 : " <= ".length = 4 := rfl
        have e2 : "std_logic".length = 9 := rfl
        have e3 : "(wrapped_".length = 9 := rfl
        have e4 : ")".length = 1 := rfl
        have e5 : " <= wrapped_".length = 12 := rfl
        omega

/-- C8 witness: the amended theorem at a width-8 signed input port (the
width ≤ 1 conjuncts hold vacuously there) and its separate conclusions
checked again at a width-1 output port. -/
theorem wrapper_cast_amended_witness :
    ((1 < (8 : Nat) → PortDir.input = PortDir.input →
      ∃ line,
        wrapperPortStrings "a" ⟨8, true, .input, "A"⟩ = .ok line ∧
        line.wrappedSignal = "signal wrapped_" ++ "a" ++ ": " ++
          "std_logic_vector" ++
          ("(" ++ natDecimal (8 - 1) ++ " downto 0)") ∧
        line.assignment = "wrapped_" ++ "a" ++ " <= " ++
          "std_logic_vector" ++ "(" ++ "a" ++ ")")) ∧
    ((8 : Nat) ≤ 1 → False) ∧
    (∃ line,
      wrapperPortStrings "b" ⟨1, false, .output, "B"⟩ = .ok line ∧
      line.wrappedSignal = "signal wrapped_" ++ "b" ++ ": " ++ "std_logic" ∧
      line.assignment =
        "b" ++ " <= " ++ "std_logic" ++ "(wrapped_" ++ "b" ++ ")" ∧
      line.assignment ≠ castFreeAssignment .output "b") := by
  refine ⟨(wrapper_cast_amended "a" ⟨8, true, .input, "A"⟩).1, ?_, ?_⟩
  · intro h
    omega
  · exact (wrapper_cast_amended "b" ⟨1, false, .output, "B"⟩).2.2.2
      (by decide) rfl

/-! ## C1: header classification of malformed container kinds -/

/-- C1 counterexample: the header `"struct plain foo.bar.baz"` (an
unrecognized container kind) does not raise — the whole decode/merge step
returns a trace bundle in which the column is an ordinary scalar trace
keyed by the full qualified name; and an `interface` column with two
nesting levels is silently recorded under the first two components.  The
code defines no `DecodeError` at all. -/
theorem unrecognized_container_counterexample :
    mergeStep [] [] [("struct plain foo.bar.baz", ["0"])] =
      .ok [("foo.bar.baz", PyObj.pylist [PyObj.pyint 0])] ∧
    classify [("interface bool a.b.c", ["1"])] =
      .ok { plains := [],
            interfaces := [("a", [("b", [PyObj.pybool true])])],
            siglists := [] } := by
  constructor <;> rfl

/-- C1 (amended): the classification loop never rejects a header on
semantic grounds.  A three-token header whose container-kind token is
neither `interface` nor `list` — recognized `plain` and unrecognized
tokens alike — takes the final `else` branch and is decoded as an
ordinary scalar column keyed by its full qualified name (end to end, the
merge step returns a bundle with that scalar trace); an `interface`
header whose qualified name has two or more `.`-separated levels is
recorded under its first two name components with the deeper levels
silently dropped.  No error of any kind is raised for either input. -/
theorem unrecognized_container_amended
    (st : Classified) (h h2 q t c n0 n1 : String)
    (cells : List String) (restNames : List String)
    (ref : List (String × PyObj)) (argTypes : List (String × String))
    (hsplit : pySplitChar ' ' h = [c, t, q])
    (hc1 : c ≠ "interface") (hc2 : c ≠ "list")
    (hsplit2 : pySplitChar ' ' h2 = ["interface", t, q])
    (hq : pySplitChar '.' q = n0 :: n1 :: restNames) :
    classifyStep st (h, cells) =
      .ok { st with plains :=
              st.plains ++ [(q, cells.map (decodeCell t))] } ∧
    classifyStep st (h2, cells) =
      .ok { st with interfaces :=
              (dictSet st.interfaces n0
                (dictSet ((dictGet? st.interfaces n0).getD []) n1
                  (cells.map (decodeCell t)))) } ∧
    mergeStep ref argTypes [(h, cells)] =
      .ok (dictSet ref q (.pylist (cells.map (decodeCell t)))) := by
  have hstep : classifyStep st (h, cells) =
      .ok { st with plains :=
              st.plains ++ [(q, cells.map (decodeCell t))] } := by
    simp only [classifyStep, hsplit]
    rw [if_neg hc1, if_neg hc2]
  refine ⟨hstep, ?_, ?_⟩
  · simp only [classifyStep, hsplit2, hq]
    simp
  · have hcl : classify [(h, cells)] =
        .ok { plains := [(q, cells.map (decodeCell t))],
              interfaces := [], siglists := [] } := by
      simp only [classify, List.foldlM]
      have hstep0 : classifyStep
          { plains := [], interfaces := [], siglists := [] } (h, cells) =
          .ok { plains := [(q, cells.map (decodeCell t))],
                interfaces := [], siglists := [] } := by
        simp only [classifyStep, hsplit]
        rw [if_neg hc1, if_neg hc2]
        rfl
      rw [hstep0]
      rfl
    simp only [mergeStep, hcl]
    rfl

/-- C1 witness: the amended theorem at the concrete headers
`"struct plain foo.bar.baz"` and `"interface plain foo.bar.baz"` with a
one-cell column. -/
theorem unrecognized_container_amended_witness :
    classifyStep { plains := [], interfaces := [], siglists := [] }
        ("struct plain foo.bar.baz", ["0"]) =
      .ok { plains := [("foo.bar.baz", ["0"].map (decodeCell "plain"))],
            interfaces := [], siglists := [] } ∧
    classifyStep { plains := [], interfaces := [], siglists := [] }
        ("interface plain foo.bar.baz", ["0"]) =
      .ok { plains := [],
            interfaces :=
              [("foo", [("bar", ["0"].map (decodeCell "plain"))])],
            siglists := [] } ∧
    mergeStep [("x", PyObj.pylist [])] [] [("struct plain foo.bar.baz", ["0"])] =
      .ok (dictSet [("x", PyObj.pylist [])] "foo.bar.baz"
            (.pylist (["0"].map (decodeCell "plain")))) := by
  have h := unrecognized_container_amended
    { plains := [], interfaces := [], siglists := [] }
    "struct plain foo.bar.baz" "interface plain foo.bar.baz"
    "foo.bar.baz" "plain" "struct" "foo" "bar" ["0"] ["baz"]
    [("x", PyObj.pylist [])] [] rfl (by decide) (by decide) rfl rfl
  exact h

/-! ## Toolkit for the merge and trim phases -/

theorem except_foldlM_cons {σ α : Type} (f : σ → α → Except String σ)
    (i : σ) (a : α) (l : List α) (out : σ)
    (h : List.foldlM f i (a :: l) = .ok out) :
    ∃ mid, f i a = .ok mid ∧ List.foldlM f mid l = .ok out := by
  rw [List.foldlM_cons] at h
  cases hfa : f i a with
  | error e =>
      rw [hfa] at h
      exact Except.noConfusion h
  | ok mid =>
      rw [hfa] at h
      exact ⟨mid, rfl, h⟩

theorem except_foldlM_inv {σ α : Type} (P : σ → Prop)
    (f : σ → α → Except String σ) (l : List α) (init out : σ)
    (h : List.foldlM f init l = .ok out) (hinit : P init)
    (hstep : ∀ s a s', a ∈ l → P s → f s a = .ok s' → P s') : P out := by
  induction l generalizing init with
  | nil =>
      simp only [List.foldlM_nil] at h
      cases h
      exact hinit
  | cons a rest ih =>
      obtain ⟨mid, hmid, hrest⟩ := except_foldlM_cons f init a rest out h
      exact ih mid hrest (hstep init a mid (by simp) hinit hmid)
        (fun s b s' hb => hstep s b s' (by simp [hb]))

theorem dictGet?_dictSet_cases {κ α : Type} [DecidableEq κ]
    (d : List (κ × α)) (k n : κ) (v w : α)
    (h : dictGet? (dictSet d k v) n = some w) :
    (n = k ∧ w = v) ∨ dictGet? d n = some w := by
  by_cases hk : n = k
  · subst hk
    rw [dictGet?_dictSet_self] at h
    exact Or.inl ⟨rfl, (Option.some.inj h).symm⟩
  · rw [dictGet?_dictSet_ne d k n v hk] at h
    exact Or.inr h

theorem mem_dictSet {κ α : Type} [DecidableEq κ]
    (d : List (κ × α)) (k : κ) (v : α) (x : κ × α)
    (h : x ∈ dictSet d k v) : x ∈ d ∨ x = (k, v) := by
  induction d with
  | nil => simp [dictSet] at h; exact Or.inr h
  | cons p rest ih =>
      obtain ⟨k₀, v₀⟩ := p
      by_cases h0 : k₀ = k
      · rw [dictSet, if_pos h0] at h
        rcases List.mem_cons.mp h with h | h
        · exact Or.inr h
        · exact Or.inl (List.mem_cons_of_mem _ h)
      · rw [dictSet, if_neg h0] at h
        rcases List.mem_cons.mp h with h | h
        · exact Or.inl (h ▸ List.mem_cons_self _ _)
        · rcases ih h with h | h
          · exact Or.inl (List.mem_cons_of_mem _ h)
          · exact Or.inr h

theorem dictSet_ne_nil {κ α : Type} [DecidableEq κ]
    (d : List (κ × α)) (k : κ) (v : α) : dictSet d k v ≠ [] := by
  cases d with
  | nil => simp [dictSet]
  | cons p rest =>
      obtain ⟨k₀, v₀⟩ := p
      by_cases h0 : k₀ = k <;> simp [dictSet, h0]

theorem dictSet_keys_nodup {κ α : Type} [DecidableEq κ]
    (d : List (κ × α)) (k : κ) (v : α) (h : (d.map Prod.fst).Nodup) :
    ((dictSet d k v).map Prod.fst).Nodup := by
  by_cases hk : k ∈ d.map Prod.fst
  · rw [dictSet_map_fst_of_mem d k v hk]
    exact h
  · rw [dictSet_map_fst_of_not_mem d k v hk]
    simp [List.nodup_append, h, hk]

theorem dictGet?_mem {κ α : Type} [DecidableEq κ]
    (d : List (κ × α)) (k : κ) (v : α) (h : dictGet? d k = some v) :
    (k, v) ∈ d := by
  induction d with
  | nil => exact absurd h (by simp [dictGet?])
  | cons p rest ih =>
      obtain ⟨k₀, v₀⟩ := p
      by_cases h0 : k₀ = k
      · subst h0
        rw [dictGet?, if_pos rfl] at h
        cases h
        exact List.mem_cons_self _ _
      · rw [dictGet?, if_neg h0] at h
        exact List.mem_cons_of_mem _ (ih h)

theorem dictGet?_of_mem_nodup {κ α : Type} [DecidableEq κ]
    (d : List (κ × α)) (k : κ) (v : α) (hmem : (k, v) ∈ d)
    (hnd : (d.map Prod.fst).Nodup) : dictGet? d k = some v := by
  induction d with
  | nil => simp at hmem
  | cons p rest ih =>
      obtain ⟨k₀, v₀⟩ := p
      simp only [List.map_cons, List.nodup_cons] at hnd
      rcases List.mem_cons.mp hmem with h | h
      · cases h
        simp [dictGet?]
      · have hk : k₀ ≠ k := by
          intro he
          subst he
          exact hnd.1 (List.mem_map.mpr ⟨(k₀, v), h, rfl⟩)
        rw [dictGet?, if_neg hk]
        exact ih h hnd.2

theorem foldl_minlen_le_init {α : Type} (l : List (List α)) (a : Nat) :
    l.foldl (fun m x => min m x.length) a ≤ a := by
  induction l generalizing a with
  | nil => simp
  | cons x rest ih =>
      simp only [List.foldl_cons]
      exact le_trans (ih (min a x.length)) (min_le_left a x.length)

theorem foldl_minlen_le_mem {α : Type} (l : List (List α)) (a : Nat)
    (b : List α) (hb : b ∈ l) :
    l.foldl (fun m x => min m x.length) a ≤ b.length := by
  induction l generalizing a with
  | nil => simp at hb
  | cons x rest ih =>
      simp only [List.foldl_cons]
      rcases List.mem_cons.mp hb with h | h
      · subst h
        exact le_trans (foldl_minlen_le_init rest (min a b.length))
          (min_le_right a b.length)
      · exact ih (min a x.length) h

theorem le_foldl_minlen {α : Type} (l : List (List α)) (a c : Nat)
    (hc : c ≤ a) (h : ∀ b ∈ l, c ≤ b.length) :
    c ≤ l.foldl (fun m x => min m x.length) a := by
  induction l generalizing a with
  | nil => simpa
  | cons x rest ih =>
      simp only [List.foldl_cons]
      exact ih (min a x.length) (le_min hc (h x (by simp)))
        (fun b hb => h b (by simp [hb]))

theorem zipStarLen_le {α : Type} (xss : List (List α)) (l : List α)
    (hl : l ∈ xss) : zipStarLen xss ≤ l.length := by
  cases xss with
  | nil => simp at hl
  | cons x rest =>
      rcases List.mem_cons.mp hl with h | h
      · subst h
        exact foldl_minlen_le_init rest l.length
      · exact foldl_minlen_le_mem rest x.length l h

theorem le_zipStarLen {α : Type} (xss : List (List α)) (L : Nat)
    (hne : xss ≠ []) (h : ∀ l ∈ xss, L ≤ l.length) : L ≤ zipStarLen xss := by
  cases xss with
  | nil => exact absurd rfl hne
  | cons x rest =>
      exact le_foldl_minlen rest x.length L (h x (by simp))
        (fun b hb => h b (by simp [hb]))

theorem zipStar_length {α : Type} (xss : List (List α)) :
    (zipStar xss).length = zipStarLen xss := by
  simp [zipStar]

theorem zipStar_get {α : Type} (xss : List (List α)) (i : Nat)
    (hi : i < zipStarLen xss) :
    ∃ row, (zipStar xss)[i]? = some row ∧
      List.Forall₂ (fun l x => l[i]? = some x) xss row := by
  refine ⟨xss.filterMap (fun l => l[i]?), ?_, ?_⟩
  · simp [zipStar, List.getElem?_map, List.getElem?_range hi]
  · have hall : ∀ l ∈ xss, i < l.length := fun l hl =>
      lt_of_lt_of_le hi (zipStarLen_le xss l hl)
    clear hi
    induction xss with
    | nil => simp
    | cons x rest ih =>
        have hlt : i < x.length := hall x (by simp)
        have hx : x[i]? = some (x.get ⟨i, hlt⟩) := by
          rw [List.getElem?_eq_getElem hlt]
          rfl
        rw [List.filterMap_cons, hx]
        exact .cons hx (ih (fun l hl => hall l (by simp [hl])))

theorem pyDictUpdate_lookup_not_mem (d pairs : List (String × PyObj))
    (f : String) (h : f ∉ pairs.map Prod.fst) :
    dictGet? (pyDictUpdate d pairs) f = dictGet? d f := by
  induction pairs generalizing d with
  | nil => rfl
  | cons p rest ih =>
      simp only [List.map_cons, List.mem_cons, not_or] at h
      simp only [pyDictUpdate, List.foldl_cons]
      have := ih (dictSet d p.1 p.2) (by simp [h.2])
      simp only [pyDictUpdate] at this
      rw [this, dictGet?_dictSet_ne d p.1 f p.2 h.1]

theorem pyDictUpdate_lookup_mem (d pairs : List (String × PyObj))
    (f : String) (c : PyObj) (hf : dictGet? pairs f = some c)
    (hnd : (pairs.map Prod.fst).Nodup) :
    dictGet? (pyDictUpdate d pairs) f = some c := by
  induction pairs generalizing d with
  | nil => simp [dictGet?] at hf
  | cons p rest ih =>
      obtain ⟨k, v⟩ := p
      simp only [List.map_cons, List.nodup_cons] at hnd
      by_cases hk : k = f
      · subst hk
        rw [dictGet?, if_pos rfl] at hf
        rw [← Option.some.inj hf]
        simp only [pyDictUpdate, List.foldl_cons]
        have hout : dictGet? (pyDictUpdate (dictSet d k v) rest) k =
            dictGet? (dictSet d k v) k :=
          pyDictUpdate_lookup_not_mem _ rest k hnd.1
        simp only [pyDictUpdate] at hout
        rw [hout, dictGet?_dictSet_self]
      · rw [dictGet?, if_neg hk] at hf
        simp only [pyDictUpdate, List.foldl_cons]
        have := ih (dictSet d k v) hf hnd.2
        simp only [pyDictUpdate] at this
        rw [this]

theorem pyDictUpdate_keys (d pairs : List (String × PyObj))
    (h : ∀ f ∈ pairs.map Prod.fst, f ∈ d.map Prod.fst) :
    (pyDictUpdate d pairs).map Prod.fst = d.map Prod.fst := by
  induction pairs generalizing d with
  | nil => rfl
  | cons p rest ih =>
      simp only [pyDictUpdate, List.foldl_cons]
      have hp : p.1 ∈ d.map Prod.fst := h p.1 (by simp)
      have hkeys := dictSet_map_fst_of_mem d p.1 p.2 hp
      have := ih (dictSet d p.1 p.2)
        (fun f hf => by rw [hkeys]; exact h f (by simp [hf]))
      simp only [pyDictUpdate] at this
      rw [this, hkeys]

theorem classify_invariants (cols : List (String × List String))
    (cl : Classified) (L : Nat) (hcl : classify cols = .ok cl)
    (hL : ∀ c ∈ cols, L ≤ c.2.length) :
    (∀ p ∈ cl.plains, L ≤ p.2.length) ∧
    (cl.interfaces.map Prod.fst).Nodup ∧
    (∀ g ∈ cl.interfaces, g.2 ≠ [] ∧ (g.2.map Prod.fst).Nodup ∧
      ∀ f ∈ g.2, L ≤ f.2.length) ∧
    (cl.siglists.map Prod.fst).Nodup ∧
    (∀ s ∈ cl.siglists, s.2 ≠ [] ∧ ∀ e ∈ s.2, L ≤ e.2.length) := by
  refine except_foldlM_inv (fun st =>
      (∀ p ∈ st.plains, L ≤ p.2.length) ∧
      (st.interfaces.map Prod.fst).Nodup ∧
      (∀ g ∈ st.interfaces, g.2 ≠ [] ∧ (g.2.map Prod.fst).Nodup ∧
        ∀ f ∈ g.2, L ≤ f.2.length) ∧
      (st.siglists.map Prod.fst).Nodup ∧
      (∀ s ∈ st.siglists, s.2 ≠ [] ∧ ∀ e ∈ s.2, L ≤ e.2.length))
    classifyStep cols _ cl hcl (by simp) ?_
  intro st col st' hcol hP hstep
  obtain ⟨hPp, hPin, hPig, hPsn, hPsg⟩ := hP
  have hcells : L ≤ col.2.length := hL col hcol
  rw [classifyStep] at hstep
  split at hstep
  case h_2 => exact Except.noConfusion hstep
  rename_i sig_container signal_type each_signal hsp
  by_cases hc : sig_container = "interface"
  · rw [if_pos hc] at hstep
    split at hstep
    · rename_i n0 n1 restN hq
      cases hstep
      refine ⟨hPp, dictSet_keys_nodup _ _ _ hPin, ?_, hPsn, hPsg⟩
      intro g hg
      rcases mem_dictSet _ _ _ _ hg with hg | hg
      · exact hPig g hg
      · subst hg
        refine ⟨dictSet_ne_nil _ _ _, ?_, ?_⟩
        · apply dictSet_keys_nodup
          cases hgi : dictGet? st.interfaces n0 with
          | none => simp
          | some iv =>
              simp only [Option.getD_some]
              exact (hPig (n0, iv) (dictGet?_mem _ _ _ hgi)).2.1
        · intro f hf
          rcases mem_dictSet _ _ _ _ hf with hf | hf
          · cases hgi : dictGet? st.interfaces n0 with
            | none => rw [hgi] at hf; simp at hf
            | some iv =>
                rw [hgi] at hf
                simp only [Option.getD_some] at hf
                exact (hPig (n0, iv) (dictGet?_mem _ _ _ hgi)).2.2 f hf
          · subst hf
            simpa using hcells
    · exact Except.noConfusion hstep
  · rw [if_neg hc] at hstep
    by_cases hc2 : sig_container = "list"
    · rw [if_pos hc2] at hstep
      split at hstep
      · rename_i sn idxStr hparse
        split at hstep
        · rename_i idx hidx
          cases hstep
          refine ⟨hPp, hPin, hPig, dictSet_keys_nodup _ _ _ hPsn, ?_⟩
          intro s hs
          rcases mem_dictSet _ _ _ _ hs with hs | hs
          · exact hPsg s hs
          · subst hs
            refine ⟨dictSet_ne_nil _ _ _, ?_⟩
            intro e he
            rcases mem_dictSet _ _ _ _ he with he | he
            · cases hgi : dictGet? st.siglists sn with
              | none => rw [hgi] at he; simp at he
              | some iv =>
                  rw [hgi] at he
                  simp only [Option.getD_some] at he
                  exact (hPsg (sn, iv) (dictGet?_mem _ _ _ hgi)).2 e he
            · subst he
              simpa using hcells
        · exact Except.noConfusion hstep
      · exact Except.noConfusion hstep
    · rw [if_neg hc2] at hstep
      cases hstep
      refine ⟨?_, hPin, hPig, hPsn, hPsg⟩
      intro p hp
      rcases List.mem_append.mp hp with hp | hp
      · exact hPp p hp
      · simp only [List.mem_singleton] at hp
        subst hp
        simpa using hcells

theorem applyPlains_lookup_not_mem (dut : List (String × PyObj))
    (plains : List (String × List PyObj)) (n : String)
    (h : n ∉ plains.map Prod.fst) :
    dictGet? (applyPlains dut plains) n = dictGet? dut n := by
  induction plains generalizing dut with
  | nil => rfl
  | cons p rest ih =>
      simp only [List.map_cons, List.mem_cons, not_or] at h
      simp only [applyPlains, List.foldl_cons]
      have := ih (dictSet dut p.1 (.pylist p.2)) (by simp [h.2])
      simp only [applyPlains] at this
      rw [this, dictGet?_dictSet_ne dut p.1 n _ h.1]

theorem applyPlains_lookup (dut : List (String × PyObj))
    (plains : List (String × List PyObj)) (n : String) (w : PyObj)
    (h : dictGet? (applyPlains dut plains) n = some w) :
    dictGet? dut n = some w ∨ ∃ xs, (n, xs) ∈ plains ∧ w = .pylist xs := by
  induction plains generalizing dut with
  | nil => exact Or.inl h
  | cons p rest ih =>
      simp only [applyPlains, List.foldl_cons] at h
      have h' : dictGet? (applyPlains (dictSet dut p.1 (.pylist p.2)) rest)
          n = some w := by
        simpa [applyPlains] using h
      rcases ih (dictSet dut p.1 (.pylist p.2)) h' with h1 | ⟨xs, hxs, rfl⟩
      · rcases dictGet?_dictSet_cases dut p.1 n _ w h1 with ⟨rfl, rfl⟩ | h2
        · exact Or.inr ⟨p.2, by simp, rfl⟩
        · exact Or.inl h2
      · exact Or.inr ⟨xs, by simp [hxs], rfl⟩

theorem applySiglists_lookup_not_mem (dut : List (String × PyObj))
    (siglists : List (String × List (Int × List PyObj))) (n : String)
    (h : n ∉ siglists.map Prod.fst) :
    dictGet? (applySiglists dut siglists) n = dictGet? dut n := by
  induction siglists generalizing dut with
  | nil => rfl
  | cons s rest ih =>
      simp only [List.map_cons, List.mem_cons, not_or] at h
      simp only [applySiglists, List.foldl_cons]
      have := ih (dictSet dut s.1
        (.pylist ((zipStar ((sortByKey s.2).map Prod.snd)).map
          PyObj.pylist))) (by simp [h.2])
      simp only [applySiglists] at this
      rw [this, dictGet?_dictSet_ne dut s.1 n _ h.1]

theorem applySiglists_lookup (dut : List (String × PyObj))
    (siglists : List (String × List (Int × List PyObj))) (n : String)
    (w : PyObj) (h : dictGet? (applySiglists dut siglists) n = some w) :
    dictGet? dut n = some w ∨
    ∃ s, s ∈ siglists ∧ n = s.1 ∧
      w = .pylist ((zipStar ((sortByKey s.2).map Prod.snd)).map
        PyObj.pylist) := by
  induction siglists generalizing dut with
  | nil => exact Or.inl h
  | cons s rest ih =>
      simp only [applySiglists, List.foldl_cons] at h
      have h' : dictGet? (applySiglists (dictSet dut s.1
          (.pylist ((zipStar ((sortByKey s.2).map Prod.snd)).map
            PyObj.pylist))) rest) n = some w := by
        simpa [applySiglists] using h
      rcases ih _ h' with h1 | ⟨s', hs', rfl, rfl⟩
      · rcases dictGet?_dictSet_cases dut s.1 n _ w h1 with ⟨rfl, rfl⟩ | h2
        · exact Or.inr ⟨s, by simp, rfl, rfl⟩
        · exact Or.inl h2
      · exact Or.inr ⟨s', by simp [hs'], rfl, rfl⟩

theorem applyInterfaceStep_ok_shape (argTypes : List (String × String))
    (d : List (String × PyObj))
    (g : String × List (String × List PyObj))
    (d' : List (String × PyObj))
    (h : applyInterfaceStep argTypes d g = .ok d') :
    d' = d ∨
    (∃ refCycles merged,
      dictGet? d g.1 = some (.pylist refCycles) ∧
      mergeCyclesFun (g.2.map Prod.fst) (zipStar (g.2.map Prod.snd))
        refCycles = .ok merged ∧ merged ≠ [] ∧
      d' = dictSet d g.1 (.pylist merged)) ∨
    (∃ cd refSignals merged,
      dictGet? d g.1 = some (.pydict cd) ∧
      dictGet? cd "signals" = some (.pylist refSignals) ∧
      mergeCyclesFun (g.2.map Prod.fst) (zipStar (g.2.map Prod.snd))
        refSignals = .ok merged ∧ merged ≠ [] ∧
      d' = dictSet d g.1 (.pydict [("signals", .pylist merged)])) := by
  rw [applyInterfaceStep] at h
  split at h
  · exact Except.noConfusion h
  rename_i ty hty
  split at h
  · exact Except.noConfusion h
  rename_i cur hcur
  split at h
  · -- axi_stream_out branch
    split at h
    · rename_i cd
      split at h
      · rename_i refSignals hsig
        split at h
        · exact Except.noConfusion h
        rename_i merged hmc
        split at h
        · cases h
          exact Or.inl rfl
        · rename_i hne
          cases h
          refine Or.inr (Or.inr ⟨cd, refSignals, merged, hcur, hsig, hmc,
            ?_, rfl⟩)
          simpa [List.isEmpty_iff] using hne
      · exact Except.noConfusion h
    · exact Except.noConfusion h
  · -- ordinary interface branch
    split at h
    · rename_i refCycles
      split at h
      · exact Except.noConfusion h
      rename_i merged hmc
      split at h
      · cases h
        exact Or.inl rfl
      · rename_i hne
        cases h
        refine Or.inr (Or.inl ⟨refCycles, merged, hcur, hmc, ?_, rfl⟩)
        simpa [List.isEmpty_iff] using hne
    · exact Except.noConfusion h

theorem applyInterfaceStep_lookup_ne (argTypes : List (String × String))
    (d : List (String × PyObj))
    (g : String × List (String × List PyObj))
    (d' : List (String × PyObj)) (n : String)
    (h : applyInterfaceStep argTypes d g = .ok d') (hn : n ≠ g.1) :
    dictGet? d' n = dictGet? d n := by
  rcases applyInterfaceStep_ok_shape argTypes d g d' h with rfl | h | h
  · rfl
  · obtain ⟨_, _, _, _, _, rfl⟩ := h
    exact dictGet?_dictSet_ne d g.1 n _ hn
  · obtain ⟨_, _, _, _, _, _, _, rfl⟩ := h
    exact dictGet?_dictSet_ne d g.1 n _ hn

theorem applyInterfaces_lookup_not_mem (argTypes : List (String × String))
    (groups : List (String × List (String × List PyObj)))
    (d d' : List (String × PyObj)) (n : String)
    (h : List.foldlM (applyInterfaceStep argTypes) d groups = .ok d')
    (hn : n ∉ groups.map Prod.fst) :
    dictGet? d' n = dictGet? d n := by
  induction groups generalizing d with
  | nil =>
      simp only [List.foldlM_nil] at h
      cases h
      rfl
  | cons g rest ih =>
      simp only [List.map_cons, List.mem_cons, not_or] at hn
      obtain ⟨mid, hmid, hrest⟩ := except_foldlM_cons _ _ _ _ _ h
      rw [ih mid hrest (by simp [hn.2]),
        applyInterfaceStep_lookup_ne argTypes d g mid n hmid hn.1]

theorem applyInterfaceStep_nonaxi_compute (argTypes : List (String × String))
    (d : List (String × PyObj))
    (g : String × List (String × List PyObj))
    (d' : List (String × PyObj)) (ty : String) (refCycles : List PyObj)
    (hty : dictGet? argTypes g.1 = some ty) (hne : ty ≠ "axi_stream_out")
    (hcur : dictGet? d g.1 = some (.pylist refCycles))
    (h : applyInterfaceStep argTypes d g = .ok d') :
    ∃ merged, mergeCyclesFun (g.2.map Prod.fst)
        (zipStar (g.2.map Prod.snd)) refCycles = .ok merged ∧
      ((merged = [] ∧ d' = d) ∨
       (merged ≠ [] ∧ d' = dictSet d g.1 (.pylist merged))) := by
  simp only [applyInterfaceStep, hty, hcur] at h
  rw [if_neg hne] at h
  cases hmc : mergeCyclesFun (g.2.map Prod.fst)
      (zipStar (g.2.map Prod.snd)) refCycles with
  | error e =>
      rw [hmc] at h
      exact Except.noConfusion h
  | ok merged =>
      rw [hmc] at h
      dsimp only at h
      refine ⟨merged, rfl, ?_⟩
      by_cases hemp : merged.isEmpty
      · rw [if_pos hemp] at h
        cases h
        exact Or.inl ⟨List.isEmpty_iff.mp hemp, rfl⟩
      · rw [if_neg hemp] at h
        cases h
        exact Or.inr ⟨fun he => hemp (by simp [he]), rfl⟩

theorem mergeCyclesFun_length (attr : List String)
    (reordered : List (List PyObj)) (refCycles merged : List PyObj)
    (h : mergeCyclesFun attr reordered refCycles = .ok merged) :
    merged.length = min refCycles.length reordered.length := by
  have := mapExcept_ok_length _ _ _ h
  simpa [List.length_zip] using this

theorem mergeCyclesFun_get (attr : List String)
    (reordered : List (List PyObj)) (refCycles merged : List PyObj)
    (h : mergeCyclesFun attr reordered refCycles = .ok merged)
    (i : Nat) (rd : List (String × PyObj)) (row : List PyObj)
    (h1 : refCycles[i]? = some (.pydict rd)) (h2 : reordered[i]? = some row) :
    merged[i]? = some (.pydict (pyDictUpdate rd (attr.zip row))) := by
  have hz : (refCycles.zip reordered)[i]? = some (.pydict rd, row) :=
    List.getElem?_zip_eq_some.mpr ⟨h1, h2⟩
  obtain ⟨b, hb1, hb2⟩ := mapExcept_ok_get _ _ _ h i _ hz
  simp only at hb2
  cases hb2
  exact hb1

theorem zip_row_lookup (G : List (String × List PyObj)) (row : List PyObj)
    (i : Nat)
    (hrel : List.Forall₂ (fun l x => l[i]? = some x) (G.map Prod.snd) row)
    (f : String) (cells : List PyObj) (hf : dictGet? G f = some cells) :
    ∃ c, cells[i]? = some c ∧
      dictGet? ((G.map Prod.fst).zip row) f = some c := by
  induction G generalizing row with
  | nil => simp [dictGet?] at hf
  | cons g rest ih =>
      rw [List.map_cons] at hrel
      cases hrel with
      | cons hx hrest =>
          rename_i x row'
          by_cases hk : g.1 = f
          · rw [dictGet?, if_pos hk] at hf
            cases hf
            refine ⟨x, hx, ?_⟩
            simp only [List.map_cons, List.zip_cons_cons]
            rw [dictGet?, if_pos hk]
          · rw [dictGet?, if_neg hk] at hf
            obtain ⟨c, hc1, hc2⟩ := ih row' hrest hf
            refine ⟨c, hc1, ?_⟩
            simp only [List.map_cons, List.zip_cons_cons]
            rw [dictGet?, if_neg hk]
            exact hc2

theorem applyInterfaces_process (argTypes : List (String × String))
    (groups : List (String × List (String × List PyObj)))
    (d d' : List (String × PyObj)) (I : String)
    (G : List (String × List PyObj)) (ty : String) (refCycles : List PyObj)
    (hnd : (groups.map Prod.fst).Nodup) (hmem : (I, G) ∈ groups)
    (hfold : List.foldlM (applyInterfaceStep argTypes) d groups = .ok d')
    (hty : dictGet? argTypes I = some ty) (hne : ty ≠ "axi_stream_out")
    (hcur : dictGet? d I = some (.pylist refCycles)) :
    ∃ merged, mergeCyclesFun (G.map Prod.fst)
        (zipStar (G.map Prod.snd)) refCycles = .ok merged ∧
      ((merged = [] ∧ dictGet? d' I = some (.pylist refCycles)) ∨
       (merged ≠ [] ∧ dictGet? d' I = some (.pylist merged))) := by
  induction groups generalizing d with
  | nil => simp at hmem
  | cons g rest ih =>
      obtain ⟨gk, gv⟩ := g
      obtain ⟨mid, hmid, hrest⟩ := except_foldlM_cons _ _ _ _ _ hfold
      simp only [List.map_cons, List.nodup_cons] at hnd
      rcases List.mem_cons.mp hmem with heq | hmem'
      · cases heq
        obtain ⟨merged, hmc, hcases⟩ :=
          applyInterfaceStep_nonaxi_compute argTypes d (I, G) mid ty
            refCycles hty hne hcur hmid
        have hpres : dictGet? d' I = dictGet? mid I :=
          applyInterfaces_lookup_not_mem argTypes rest mid d' I hrest hnd.1
        refine ⟨merged, hmc, ?_⟩
        rcases hcases with ⟨hm, rfl⟩ | ⟨hm, rfl⟩
        · exact Or.inl ⟨hm, by rw [hpres, hcur]⟩
        · exact Or.inr ⟨hm, by rw [hpres]; exact dictGet?_dictSet_self _ _ _⟩
      · have hIne : I ≠ gk := by
          intro he
          subst he
          exact hnd.1 (List.mem_map.mpr ⟨(I, G), hmem', rfl⟩)
        have hmidI : dictGet? mid I = some (.pylist refCycles) := by
          rw [applyInterfaceStep_lookup_ne argTypes d (gk, gv) mid I hmid
            hIne, hcur]
        exact ih mid hnd.2 hmem' hrest hmidI

/-! ## C3: merge into the reference skeleton -/

/-- C3: after the merge step (header classification, scalar writes, list
and interface reconstruction), every argument name not recorded by the
external run keeps exactly its reference entry; for a recorded interface
argument the merged trace zips the reference cycles against the recorded
field columns and, per cycle, overwrites only the recorded fields: every
reference-only field keeps the reference value cycle-for-cycle, the
per-cycle field order is the reference (caller-declared) field order
whenever every recorded field is a declared field, and each recorded
field carries the decoded column value of that cycle.  The merge reads
`ref` purely — each cycle dict is copied before being updated — so the
reference mapping itself is left unmodified. -/
theorem mergeStep_reference_skeleton
    (ref dut : List (String × PyObj)) (argTypes : List (String × String))
    (cols : List (String × List String)) (cl : Classified)
    (hcl : classify cols = .ok cl)
    (hok : mergeStep ref argTypes cols = .ok dut) :
    (∀ n, n ∉ cl.plains.map Prod.fst → n ∉ cl.siglists.map Prod.fst →
        n ∉ cl.interfaces.map Prod.fst →
        dictGet? dut n = dictGet? ref n) ∧
    (∀ I G ty refCycles,
        dictGet? cl.interfaces I = some G →
        I ∉ cl.plains.map Prod.fst → I ∉ cl.siglists.map Prod.fst →
        dictGet? argTypes I = some ty → ty ≠ "axi_stream_out" →
        dictGet? ref I = some (.pylist refCycles) →
        ∃ merged,
          mergeCyclesFun (G.map Prod.fst) (zipStar (G.map Prod.snd))
            refCycles = .ok merged ∧
          merged.length =
            min refCycles.length (zipStarLen (G.map Prod.snd)) ∧
          ((merged = [] ∧ dictGet? dut I = some (.pylist refCycles)) ∨
           (merged ≠ [] ∧ dictGet? dut I = some (.pylist merged))) ∧
          (∀ i rd, refCycles[i]? = some (.pydict rd) →
            i < zipStarLen (G.map Prod.snd) →
            ∃ md, merged[i]? = some (PyObj.pydict md) ∧
              (∀ f, f ∉ G.map Prod.fst →
                dictGet? md f = dictGet? rd f) ∧
              ((∀ f, f ∈ G.map Prod.fst → f ∈ rd.map Prod.fst) →
                md.map Prod.fst = rd.map Prod.fst) ∧
              (∀ f cells, dictGet? G f = some cells →
                ∃ c, cells[i]? = some c ∧ dictGet? md f = some c))) := by
  simp only [mergeStep, hcl] at hok
  obtain ⟨hinv_p, hinv_ind, hinv_ig, hinv_sn, hinv_sg⟩ :=
    classify_invariants cols cl 0 hcl (fun c _ => Nat.zero_le _)
  constructor
  · intro n hp hs hi
    rw [applyInterfaces_lookup_not_mem argTypes cl.interfaces _ dut n hok hi,
        applySiglists_lookup_not_mem _ cl.siglists n hs,
        applyPlains_lookup_not_mem ref cl.plains n hp]
  · intro I G ty refCycles hG hp hs hty hne href
    have hmemIG : (I, G) ∈ cl.interfaces := dictGet?_mem _ _ _ hG
    have hGnodup := (hinv_ig (I, G) hmemIG).2.1
    have hcur : dictGet? (applySiglists (applyPlains ref cl.plains)
        cl.siglists) I = some (.pylist refCycles) := by
      rw [applySiglists_lookup_not_mem _ _ _ hs,
          applyPlains_lookup_not_mem _ _ _ hp, href]
    obtain ⟨merged, hmc, hcases⟩ :=
      applyInterfaces_process argTypes cl.interfaces _ dut I G ty refCycles
        hinv_ind hmemIG hok hty hne hcur
    have hlen := mergeCyclesFun_length _ _ _ _ hmc
    refine ⟨merged, hmc, by rw [hlen, zipStar_length], hcases, ?_⟩
    intro i rd hrd hi
    obtain ⟨row, hrow, hrel⟩ := zipStar_get (G.map Prod.snd) i hi
    have hmi := mergeCyclesFun_get _ _ _ _ hmc i rd row hrd hrow
    have hkeys : ((G.map Prod.fst).zip row).map Prod.fst =
        G.map Prod.fst := by
      apply List.map_fst_zip
      have hle := List.Forall₂.length_eq hrel
      simp only [List.length_map] at hle ⊢
      omega
    refine ⟨pyDictUpdate rd ((G.map Prod.fst).zip row), hmi, ?_, ?_, ?_⟩
    · intro f hf
      apply pyDictUpdate_lookup_not_mem
      rw [hkeys]
      exact hf
    · intro hsub
      apply pyDictUpdate_keys
      intro f hf
      rw [hkeys] at hf
      exact hsub f hf
    · intro f cells hfc
      obtain ⟨c, hc1, hc2⟩ := zip_row_lookup G row i hrel f cells hfc
      refine ⟨c, hc1, ?_⟩
      apply pyDictUpdate_lookup_mem _ _ _ _ hc2
      rw [hkeys]
      exact hGnodup

/-- C3 witness: a two-cycle interface argument `iface` with declared
fields `a`, `b` of which only `b` was recorded, plus an unrecorded
argument `x`; the merged bundle keeps `x` from the reference and merges
`iface` per cycle. -/
theorem mergeStep_reference_skeleton_witness :
    (dictGet?
      [("iface", PyObj.pylist
          [.pydict [("a", PyObj.pyint 1), ("b", PyObj.pyint 1)],
           .pydict [("a", PyObj.pyint 3), ("b", PyObj.pyint 0)]]),
       ("x", PyObj.pylist [PyObj.pyint 0, PyObj.pyint 0])] "x" =
     dictGet?
      [("iface", PyObj.pylist
          [.pydict [("a", PyObj.pyint 1), ("b", PyObj.pyint 2)],
           .pydict [("a", PyObj.pyint 3), ("b", PyObj.pyint 4)]]),
       ("x", PyObj.pylist [PyObj.pyint 0, PyObj.pyint 0])] "x") ∧
    (∃ merged,
      mergeCyclesFun
          ([("b", [PyObj.pyint 1, PyObj.pyint 0, PyObj.pyint 1])].map
            Prod.fst)
          (zipStar
            ([("b", [PyObj.pyint 1, PyObj.pyint 0, PyObj.pyint 1])].map
              Prod.snd))
          [.pydict [("a", PyObj.pyint 1), ("b", PyObj.pyint 2)],
           .pydict [("a", PyObj.pyint 3), ("b", PyObj.pyint 4)]] =
        .ok merged ∧
      merged.length = min 2 (zipStarLen
        ([("b", [PyObj.pyint 1, PyObj.pyint 0, PyObj.pyint 1])].map
          Prod.snd)) ∧
      ((merged = [] ∧
        dictGet?
          [("iface", PyObj.pylist
              [.pydict [("a", PyObj.pyint 1), ("b", PyObj.pyint 1)],
               .pydict [("a", PyObj.pyint 3), ("b", PyObj.pyint 0)]]),
           ("x", PyObj.pylist [PyObj.pyint 0, PyObj.pyint 0])] "iface" =
          some (.pylist
            [.pydict [("a", PyObj.pyint 1), ("b", PyObj.pyint 2)],
             .pydict [("a", PyObj.pyint 3), ("b", PyObj.pyint 4)]])) ∨
       (merged ≠ [] ∧
        dictGet?
          [("iface", PyObj.pylist
              [.pydict [("a", PyObj.pyint 1), ("b", PyObj.pyint 1)],
               .pydict [("a", PyObj.pyint 3), ("b", PyObj.pyint 0)]]),
           ("x", PyObj.pylist [PyObj.pyint 0, PyObj.pyint 0])] "iface" =
          some (.pylist merged))) ∧
      (∀ i rd,
        [PyObj.pydict [("a", PyObj.pyint 1), ("b", PyObj.pyint 2)],
         PyObj.pydict [("a", PyObj.pyint 3), ("b", PyObj.pyint 4)]][i]? =
          some (.pydict rd) →
        i < zipStarLen
          ([("b", [PyObj.pyint 1, PyObj.pyint 0, PyObj.pyint 1])].map
            Prod.snd) →
        ∃ md, merged[i]? = some (PyObj.pydict md) ∧
          (∀ f, f ∉ ([("b",
              [PyObj.pyint 1, PyObj.pyint 0, PyObj.pyint 1])].map
                Prod.fst) →
            dictGet? md f = dictGet? rd f) ∧
          ((∀ f, f ∈ ([("b",
              [PyObj.pyint 1, PyObj.pyint 0, PyObj.pyint 1])].map
                Prod.fst) → f ∈ rd.map Prod.fst) →
            md.map Prod.fst = rd.map Prod.fst) ∧
          (∀ f cells,
            dictGet? [("b", [PyObj.pyint 1, PyObj.pyint 0, PyObj.pyint 1])]
              f = some cells →
            ∃ c, cells[i]? = some c ∧ dictGet? md f = some c))) := by
  have h := mergeStep_reference_skeleton
    [("iface", PyObj.pylist
        [.pydict [("a", PyObj.pyint 1), ("b", PyObj.pyint 2)],
         .pydict [("a", PyObj.pyint 3), ("b", PyObj.pyint 4)]]),
     ("x", PyObj.pylist [PyObj.pyint 0, PyObj.pyint 0])]
    [("iface", PyObj.pylist
        [.pydict [("a", PyObj.pyint 1), ("b", PyObj.pyint 1)],
         .pydict [("a", PyObj.pyint 3), ("b", PyObj.pyint 0)]]),
     ("x", PyObj.pylist [PyObj.pyint 0, PyObj.pyint 0])]
    [("iface", "custom"), ("x", "output")]
    [("interface unsigned iface.b", ["1", "0", "1"])]
    { plains := [],
      interfaces :=
        [("iface", [("b", [PyObj.pyint 1, PyObj.pyint 0, PyObj.pyint 1])])],
      siglists := [] }
    rfl rfl
  exact ⟨h.1 "x" (by simp) (by simp) (by simp),
    h.2 "iface" [("b", [PyObj.pyint 1, PyObj.pyint 0, PyObj.pyint 1])]
      "custom"
      [.pydict [("a", PyObj.pyint 1), ("b", PyObj.pyint 2)],
       .pydict [("a", PyObj.pyint 3), ("b", PyObj.pyint 4)]]
      rfl (by simp) (by simp) rfl (by decide) rfl⟩

/-! ## C4: length invariants through the pipeline -/

theorem inv_applyPlains (refKeys : List String) (L : Nat)
    (dut : List (String × PyObj)) (plains : List (String × List PyObj))
    (hinv : ∀ n w, n ∈ refKeys → dictGet? dut n = some w → EntryLenGE L w)
    (hlen : ∀ p ∈ plains, L ≤ p.2.length) :
    ∀ n w, n ∈ refKeys → dictGet? (applyPlains dut plains) n = some w →
      EntryLenGE L w := by
  intro n w hn hw
  rcases applyPlains_lookup dut plains n w hw with h | ⟨xs, hxs, rfl⟩
  · exact hinv n w hn h
  · exact Or.inl ⟨xs, rfl, hlen (n, xs) hxs⟩

theorem inv_applySiglists (refKeys : List String) (L : Nat)
    (dut : List (String × PyObj))
    (siglists : List (String × List (Int × List PyObj)))
    (hinv : ∀ n w, n ∈ refKeys → dictGet? dut n = some w → EntryLenGE L w)
    (hgrp : ∀ s ∈ siglists, s.2 ≠ [] ∧ ∀ e ∈ s.2, L ≤ e.2.length) :
    ∀ n w, n ∈ refKeys →
      dictGet? (applySiglists dut siglists) n = some w → EntryLenGE L w := by
  intro n w hn hw
  rcases applySiglists_lookup dut siglists n w hw with h | ⟨s, hs, rfl, rfl⟩
  · exact hinv n w hn h
  · left
    refine ⟨_, rfl, ?_⟩
    rw [List.length_map, zipStar_length]
    apply le_zipStarLen
    · intro he
      have h1 : sortByKey s.2 = [] := by
        cases hsk : sortByKey s.2 with
        | nil => rfl
        | cons a l => rw [hsk] at he; simp at he
      have h2 := List.perm_insertionSort
        (fun a b : Int × List PyObj => a.1 ≤ b.1) s.2
      rw [show List.insertionSort (fun a b : Int × List PyObj =>
        a.1 ≤ b.1) s.2 = sortByKey s.2 from rfl, h1] at h2
      exact (hgrp s hs).1 (List.Perm.nil_eq h2).symm
    · intro b hb
      obtain ⟨e, he, rfl⟩ := List.mem_map.mp hb
      have hperm := List.perm_insertionSort
        (fun a b : Int × List PyObj => a.1 ≤ b.1) s.2
      have : e ∈ s.2 := hperm.mem_iff.mp he
      exact (hgrp s hs).2 e this

theorem inv_applyInterfaceStep (refKeys : List String) (L : Nat)
    (argTypes : List (String × String)) (d : List (String × PyObj))
    (g : String × List (String × List PyObj)) (d' : List (String × PyObj))
    (h : applyInterfaceStep argTypes d g = .ok d')
    (hinv : ∀ n w, n ∈ refKeys → dictGet? d n = some w → EntryLenGE L w)
    (hg : g.2 ≠ [] ∧ ∀ f ∈ g.2, L ≤ f.2.length) :
    ∀ n w, n ∈ refKeys → dictGet? d' n = some w → EntryLenGE L w := by
  have hzlen : L ≤ zipStarLen (g.2.map Prod.snd) := by
    apply le_zipStarLen
    · intro he
      cases hg2 : g.2 with
      | nil => exact hg.1 hg2
      | cons a l => rw [hg2] at he; simp at he
    · intro b hb
      obtain ⟨f, hf, rfl⟩ := List.mem_map.mp hb
      exact hg.2 f hf
  intro n w hn hw
  rcases applyInterfaceStep_ok_shape argTypes d g d' h with rfl | hsh | hsh
  · exact hinv n w hn hw
  · obtain ⟨refCycles, merged, hcur, hmc, hme, rfl⟩ := hsh
    rcases dictGet?_dictSet_cases d g.1 n _ w hw with ⟨rfl, rfl⟩ | hold
    · left
      refine ⟨merged, rfl, ?_⟩
      rw [mergeCyclesFun_length _ _ _ _ hmc, zipStar_length]
      have hrc : EntryLenGE L (PyObj.pylist refCycles) := hinv _ _ hn hcur
      rcases hrc with ⟨xs, hxs, hlx⟩ | ⟨vd, _, hvd, _, _⟩
      · cases hxs
        exact le_min hlx hzlen
      · exact absurd hvd (by intro hc; exact PyObj.noConfusion hc)
    · exact hinv n w hn hold
  · obtain ⟨cd, refSignals, merged, hcur, hsig, hmc, hme, rfl⟩ := hsh
    rcases dictGet?_dictSet_cases d g.1 n _ w hw with ⟨rfl, rfl⟩ | hold
    · right
      refine ⟨_, merged, rfl, by rw [dictGet?]; simp, ?_⟩
      rw [mergeCyclesFun_length _ _ _ _ hmc, zipStar_length]
      have hrc : EntryLenGE L (PyObj.pydict cd) := hinv _ _ hn hcur
      rcases hrc with ⟨xs, hxs, _⟩ | ⟨vd, sigs, hvd, hvs, hls⟩
      · exact absurd hxs (by intro hc; exact PyObj.noConfusion hc)
      · have hvd' : vd = cd := by
          cases hvd
          rfl
        subst hvd'
        rw [hsig] at hvs
        have : sigs = refSignals := by
          cases hvs
          rfl
        subst this
        exact le_min hls hzlen
    · exact hinv n w hn hold

theorem inv_mergeStep (refKeys : List String) (L : Nat)
    (ref dut : List (String × PyObj)) (argTypes : List (String × String))
    (cols : List (String × List String)) (cl : Classified)
    (hcl : classify cols = .ok cl)
    (hok : mergeStep ref argTypes cols = .ok dut)
    (hcols : ∀ c ∈ cols, L ≤ c.2.length)
    (hinv : ∀ n w, n ∈ refKeys → dictGet? ref n = some w → EntryLenGE L w) :
    ∀ n w, n ∈ refKeys → dictGet? dut n = some w → EntryLenGE L w := by
  simp only [mergeStep, hcl] at hok
  obtain ⟨hinv_p, _, hinv_ig, _, hinv_sg⟩ :=
    classify_invariants cols cl L hcl hcols
  have h1 := inv_applyPlains refKeys L ref cl.plains hinv hinv_p
  have h2 := inv_applySiglists refKeys L _ cl.siglists h1
    (fun s hs => (hinv_sg s hs))
  exact except_foldlM_inv
    (fun d => ∀ n w, n ∈ refKeys → dictGet? d n = some w → EntryLenGE L w)
    (applyInterfaceStep argTypes) cl.interfaces _ dut hok h2
    (fun d g d' hgmem hP hstep =>
      inv_applyInterfaceStep refKeys L argTypes d g d' hstep hP
        ⟨(hinv_ig g hgmem).1, (hinv_ig g hgmem).2.2⟩)

theorem attachStep_ok_shape (argTypes : List (String × String))
    (axiFiles : String → List AxiRow) (d : List (String × PyObj))
    (nv : String × PyObj) (d₂ : List (String × PyObj))
    (h : (match dictGet? argTypes nv.1 with
          | none => Except.error "KeyError: arg_types"
          | some ty =>
              if ty = "axi_stream_out" then
                match axiPacketDecode (axiFiles nv.1) with
                | .error e => .error e
                | .ok r =>
                    match dictGet? d nv.1 with
                    | none => .error "KeyError: dut_outputs"
                    | some (.pydict cd) =>
                        let objs := packetsObj r
                        let cd1 := dictSet cd "packets" objs.1
                        let cd2 := dictSet cd1 "incomplete_packet" objs.2
                        .ok (dictSet d nv.1 (.pydict cd2))
                    | some _ =>
                        .error "TypeError: axi_stream_out entry is not a dict"
              else .ok d : Except String (List (String × PyObj))) = .ok d₂) :
    d₂ = d ∨
    ∃ cd r, dictGet? d nv.1 = some (.pydict cd) ∧
      d₂ = dictSet d nv.1 (.pydict
        (dictSet (dictSet cd "packets" (packetsObj r).1)
          "incomplete_packet" (packetsObj r).2)) := by
  split at h
  · exact Except.noConfusion h
  split at h
  · split at h
    · exact Except.noConfusion h
    · rename_i r hr
      split at h
      · exact Except.noConfusion h
      · rename_i cd hcd
        simp only at h
        cases h
        exact Or.inr ⟨cd, r, hcd, rfl⟩
      · exact Except.noConfusion h
  · cases h
    exact Or.inl rfl

theorem inv_attachAxiPackets (refKeys : List String) (L : Nat)
    (argTypes : List (String × String)) (axiFiles : String → List AxiRow)
    (dut ref out : List (String × PyObj))
    (hok : attachAxiPackets argTypes axiFiles dut ref = .ok out)
    (hinv : ∀ n w, n ∈ refKeys → dictGet? dut n = some w → EntryLenGE L w) :
    ∀ n w, n ∈ refKeys → dictGet? out n = some w → EntryLenGE L w := by
  rw [attachAxiPackets] at hok
  refine except_foldlM_inv
    (fun d => ∀ n w, n ∈ refKeys → dictGet? d n = some w → EntryLenGE L w)
    _ ref dut out hok hinv ?_
  intro d nv d₂ _ hP hstep
  rcases attachStep_ok_shape argTypes axiFiles d nv d₂ hstep with rfl | hsh
  · exact hP
  · obtain ⟨cd, r, hcd, rfl⟩ := hsh
    intro n w hn hw
    rcases dictGet?_dictSet_cases d nv.1 n _ w hw with ⟨rfl, rfl⟩ | hold
    · have hrc : EntryLenGE L (PyObj.pydict cd) := hP _ _ hn hcd
      rcases hrc with ⟨xs, hxs, _⟩ | ⟨vd, sigs, hvd, hvs, hls⟩
      · exact absurd hxs (by intro hc; exact PyObj.noConfusion hc)
      · have hvd' : vd = cd := by
          cases hvd
          rfl
        subst hvd'
        right
        refine ⟨_, sigs, rfl, ?_, hls⟩
        rw [dictGet?_dictSet_ne _ _ _ _ (by decide),
            dictGet?_dictSet_ne _ _ _ _ (by decide)]
        exact hvs
    · exact hP n w hn hold

/-- The body of the trimming loop for one reference entry, named for
reasoning about the fold. -/
def trimStepFn (argTypes : List (String × String)) (L : Nat)
    (dr : List (String × PyObj) × List (String × PyObj))
    (nv : String × PyObj) :
    Except String (List (String × PyObj) × List (String × PyObj)) :=
  match dictGet? argTypes nv.1 with
  | none => .error "KeyError: arg_types"
  | some ty =>
      match trimValue ty L nv.2 with
      | .error e => .error e
      | .ok newRef =>
          match dictGet? dr.1 nv.1 with
          | none => .error "KeyError: dut_outputs"
          | some cur =>
              match trimValue ty L cur with
              | .error e => .error e
              | .ok newDut =>
                  .ok (dictSet dr.1 nv.1 newDut, dictSet dr.2 nv.1 newRef)

theorem trimOutputs_eq (argTypes : List (String × String)) (L : Nat)
    (dut ref : List (String × PyObj)) :
    trimOutputs argTypes L dut ref =
      List.foldlM (trimStepFn argTypes L) (dut, ref) ref := rfl

theorem trimStepFn_ok_shape (argTypes : List (String × String)) (L : Nat)
    (dr : List (String × PyObj) × List (String × PyObj))
    (nv : String × PyObj)
    (dr₂ : List (String × PyObj) × List (String × PyObj))
    (h : trimStepFn argTypes L dr nv = .ok dr₂) :
    ∃ ty tr cur td, dictGet? argTypes nv.1 = some ty ∧
      trimValue ty L nv.2 = .ok tr ∧
      dictGet? dr.1 nv.1 = some cur ∧
      trimValue ty L cur = .ok td ∧
      dr₂ = (dictSet dr.1 nv.1 td, dictSet dr.2 nv.1 tr) := by
  rw [trimStepFn] at h
  split at h
  · exact Except.noConfusion h
  rename_i ty hty
  split at h
  · exact Except.noConfusion h
  rename_i tr htr
  split at h
  · exact Except.noConfusion h
  rename_i cur hcur
  split at h
  · exact Except.noConfusion h
  rename_i td htd
  cases h
  exact ⟨ty, tr, cur, td, hty, htr, hcur, htd, rfl⟩

theorem trim_fold_preserve (argTypes : List (String × String)) (L : Nat)
    (l : List (String × PyObj))
    (d0 r0 dO rO : List (String × PyObj))
    (hok : List.foldlM (trimStepFn argTypes L) (d0, r0) l = .ok (dO, rO))
    (n : String) (hn : n ∉ l.map Prod.fst) :
    dictGet? dO n = dictGet? d0 n ∧ dictGet? rO n = dictGet? r0 n := by
  induction l generalizing d0 r0 with
  | nil =>
      simp only [List.foldlM_nil] at hok
      cases hok
      exact ⟨rfl, rfl⟩
  | cons nv rest ih =>
      simp only [List.map_cons, List.mem_cons, not_or] at hn
      obtain ⟨mid, hstep, hrest⟩ :=
        except_foldlM_cons (trimStepFn argTypes L) _ nv rest _ hok
      obtain ⟨ty, tr, cur, td, _, _, _, _, rfl⟩ :=
        trimStepFn_ok_shape argTypes L _ nv mid hstep
      have hmid := ih _ _ hrest hn.2
      rw [hmid.1, hmid.2,
          dictGet?_dictSet_ne _ _ _ _ hn.1,
          dictGet?_dictSet_ne _ _ _ _ hn.1]
      exact ⟨rfl, rfl⟩

theorem trim_fold_lookup (argTypes : List (String × String)) (L : Nat)
    (l : List (String × PyObj))
    (d0 r0 dO rO : List (String × PyObj))
    (hok : List.foldlM (trimStepFn argTypes L) (d0, r0) l = .ok (dO, rO))
    (hnd : (l.map Prod.fst).Nodup) :
    ∀ nv ∈ l, ∃ ty tr cur td, dictGet? argTypes nv.1 = some ty ∧
      trimValue ty L nv.2 = .ok tr ∧
      dictGet? d0 nv.1 = some cur ∧
      trimValue ty L cur = .ok td ∧
      dictGet? dO nv.1 = some td ∧ dictGet? rO nv.1 = some tr := by
  induction l generalizing d0 r0 with
  | nil => intro nv h; exact absurd h (by simp)
  | cons hd rest ih =>
      simp only [List.map_cons, List.nodup_cons] at hnd
      obtain ⟨mid, hstep, hrest⟩ :=
        except_foldlM_cons (trimStepFn argTypes L) _ hd rest _ hok
      obtain ⟨ty, tr, cur, td, hty, htr, hcur, htd, rfl⟩ :=
        trimStepFn_ok_shape argTypes L _ hd mid hstep
      intro nv hnv
      rcases List.mem_cons.mp hnv with rfl | hmem
      · have hpres := trim_fold_preserve argTypes L rest _ _ dO rO hrest
          nv.1 hnd.1
        refine ⟨ty, tr, cur, td, hty, htr, hcur, htd, ?_, ?_⟩
        · rw [hpres.1, dictGet?_dictSet_self]
        · rw [hpres.2, dictGet?_dictSet_self]
      · have hne : nv.1 ≠ hd.1 := by
          intro he
          exact hnd.1 (he ▸ List.mem_map_of_mem Prod.fst hmem)
        obtain ⟨ty', tr', cur', td', hty', htr', hcur', htd', hdO, hrO⟩ :=
          ih _ _ hrest hnd.2 nv hmem
        rw [dictGet?_dictSet_ne _ _ _ _ hne] at hcur'
        exact ⟨ty', tr', cur', td', hty', htr', hcur', htd', hdO, hrO⟩

theorem trimValue_traceLen (argTypes : List (String × String)) (n : String)
    (ty : String) (L : Nat) (v tv : PyObj)
    (hty : dictGet? argTypes n = some ty)
    (h : trimValue ty L v = .ok tv) (hge : EntryLenGE L v) :
    traceLen argTypes n tv = some L := by
  by_cases haxi : ty = "axi_stream_out"
  · subst haxi
    cases v with
    | pydict vd =>
        rcases hge with ⟨xs, hxs, _⟩ | ⟨vd', sigs', hvd, hvs, hls⟩
        · exact absurd hxs (by intro hc; exact PyObj.noConfusion hc)
        · have hvd' : vd' = vd := by
            cases hvd
            rfl
          subst hvd'
          rw [trimValue.eq_def, if_pos rfl] at h
          dsimp only at h
          rw [hvs] at h
          dsimp only at h
          cases h
          rw [traceLen, if_pos hty]
          rw [dictGet?_dictSet_self]
          dsimp only
          rw [List.length_take, Nat.min_eq_left hls]
    | none_ => exact Except.noConfusion h
    | pybool b => exact Except.noConfusion h
    | pyint i => exact Except.noConfusion h
    | pylist xs => exact Except.noConfusion h
  · have hcond : ¬ (dictGet? argTypes n = some "axi_stream_out") := by
      rw [hty]
      intro hc
      exact haxi (Option.some.inj hc)
    cases v with
    | pylist xs =>
        rw [trimValue.eq_def, if_neg haxi] at h
        dsimp only at h
        cases h
        rcases hge with ⟨xs', hxs, hlx⟩ | ⟨vd, _, hvd, _, _⟩
        · have hxs' : xs' = xs := by
            cases hxs
            rfl
          subst hxs'
          rw [traceLen, if_neg hcond]
          rw [List.length_take, Nat.min_eq_left hlx]
        · exact absurd hvd (by intro hc; exact PyObj.noConfusion hc)
    | none_ =>
        rw [trimValue.eq_def, if_neg haxi] at h
        exact Except.noConfusion h
    | pybool b =>
        rw [trimValue.eq_def, if_neg haxi] at h
        exact Except.noConfusion h
    | pyint i =>
        rw [trimValue.eq_def, if_neg haxi] at h
        exact Except.noConfusion h
    | pydict vd =>
        rw [trimValue.eq_def, if_neg haxi] at h
        exact Except.noConfusion h

theorem traceLen_entryLenGE (argTypes : List (String × String))
    (n : String) (v : PyObj) (L : Nat)
    (h : traceLen argTypes n v = some L) : EntryLenGE L v := by
  rw [traceLen.eq_def] at h
  by_cases hc : dictGet? argTypes n = some "axi_stream_out"
  · rw [if_pos hc] at h
    cases v with
    | pydict vd =>
        dsimp only at h
        cases hs : dictGet? vd "signals" with
        | none => rw [hs] at h; exact Option.noConfusion h
        | some w =>
            rw [hs] at h
            cases w with
            | pylist sigs =>
                dsimp only at h
                right
                exact ⟨vd, sigs, rfl, hs,
                  Nat.le_of_eq (Option.some.inj h).symm⟩
            | none_ => exact Option.noConfusion h
            | pybool b => exact Option.noConfusion h
            | pyint i => exact Option.noConfusion h
            | pydict d => exact Option.noConfusion h
    | none_ => exact Option.noConfusion h
    | pybool b => exact Option.noConfusion h
    | pyint i => exact Option.noConfusion h
    | pylist xs => exact Option.noConfusion h
  · rw [if_neg hc] at h
    cases v with
    | pylist xs =>
        dsimp only at h
        left
        exact ⟨xs, rfl, Nat.le_of_eq (Option.some.inj h).symm⟩
    | none_ => exact Option.noConfusion h
    | pybool b => exact Option.noConfusion h
    | pyint i => exact Option.noConfusion h
    | pydict vd => exact Option.noConfusion h

/-- C4: for every reference argument, both returned traces (the merged
`dut_outputs` entry and the `ref_outputs` entry) are trimmed to exactly
the reference run's recorded length `L`, discarding any cycles the
external capture produced beyond it. -/
theorem decodePipeline_trims_to_reference_length
    (ref : List (String × PyObj)) (argTypes : List (String × String))
    (cols : List (String × List String))
    (axiFiles : String → List AxiRow) (L : Nat)
    (dutOut refOut : List (String × PyObj))
    (hok : decodePipeline ref argTypes cols axiFiles L = .ok (dutOut, refOut))
    (hnd : (ref.map Prod.fst).Nodup)
    (href : ∀ nv ∈ ref, traceLen argTypes nv.1 nv.2 = some L)
    (hcols : ∀ c ∈ cols, L ≤ c.2.length) :
    ∀ nv ∈ ref,
      (∃ w, dictGet? dutOut nv.1 = some w ∧
        traceLen argTypes nv.1 w = some L) ∧
      (∃ w, dictGet? refOut nv.1 = some w ∧
        traceLen argTypes nv.1 w = some L) := by
  rw [decodePipeline] at hok
  split at hok
  · exact Except.noConfusion hok
  rename_i merged hm
  split at hok
  · exact Except.noConfusion hok
  rename_i withPk ha
  have hInv1 : ∀ n w, n ∈ ref.map Prod.fst → dictGet? ref n = some w →
      EntryLenGE L w := by
    intro n w _ hw
    exact traceLen_entryLenGE argTypes n w L
      (href (n, w) (dictGet?_mem ref n w hw))
  have hInv2 : ∀ n w, n ∈ ref.map Prod.fst → dictGet? merged n = some w →
      EntryLenGE L w := by
    cases hclr : classify cols with
    | error e =>
        simp only [mergeStep, hclr] at hm
        exact Except.noConfusion hm
    | ok cl =>
        exact inv_mergeStep (ref.map Prod.fst) L ref merged argTypes cols
          cl hclr hm hcols hInv1
  have hInv3 : ∀ n w, n ∈ ref.map Prod.fst → dictGet? withPk n = some w →
      EntryLenGE L w :=
    inv_attachAxiPackets (ref.map Prod.fst) L argTypes axiFiles merged ref
      withPk ha hInv2
  rw [trimOutputs_eq] at hok
  intro nv hnv
  obtain ⟨ty, tr, cur, td, hty, htr, hcur, htd, hdO, hrO⟩ :=
    trim_fold_lookup argTypes L ref withPk ref dutOut refOut hok hnd nv hnv
  constructor
  · refine ⟨td, hdO, ?_⟩
    exact trimValue_traceLen argTypes nv.1 ty L cur td hty htd
      (hInv3 nv.1 cur (List.mem_map_of_mem Prod.fst hnv) hcur)
  · refine ⟨tr, hrO, ?_⟩
    exact trimValue_traceLen argTypes nv.1 ty L nv.2 tr hty htr
      (traceLen_entryLenGE argTypes nv.1 nv.2 L (href nv hnv))

theorem decodePipeline_trims_to_reference_length_witness :
    (∃ w, dictGet?
        [("a", PyObj.pylist (List.replicate 20 (PyObj.pybool true))),
         ("b", PyObj.pylist (List.replicate 20 (PyObj.pyint 0)))] "a" =
          some w ∧
      traceLen [("a", "output"), ("b", "output")] "a" w = some 20) ∧
    (∃ w, dictGet?
        [("a", PyObj.pylist (List.replicate 20 (PyObj.pyint 0))),
         ("b", PyObj.pylist (List.replicate 20 (PyObj.pyint 0)))] "a" =
          some w ∧
      traceLen [("a", "output"), ("b", "output")] "a" w = some 20) :=
  decodePipeline_trims_to_reference_length
    [("a", PyObj.pylist (List.replicate 20 (PyObj.pyint 0))),
     ("b", PyObj.pylist (List.replicate 20 (PyObj.pyint 0)))]
    [("a", "output"), ("b", "output")]
    [("plain bool a", List.replicate 21 "1")]
    (fun _ => []) 20
    [("a", PyObj.pylist (List.replicate 20 (PyObj.pybool true))),
     ("b", PyObj.pylist (List.replicate 20 (PyObj.pyint 0)))]
    [("a", PyObj.pylist (List.replicate 20 (PyObj.pyint 0))),
     ("b", PyObj.pylist (List.replicate 20 (PyObj.pyint 0)))]
    rfl
    (by decide)
    (by
      intro nv hnv
      rcases List.mem_cons.mp hnv with rfl | hnv
      · rfl
      · rcases List.mem_cons.mp hnv with rfl | hnv
        · rfl
        · exact absurd hnv (by simp))
    (by
      intro c hc
      rw [List.mem_singleton] at hc
      subst hc
      decide)
    ("a", PyObj.pylist (List.replicate 20 (PyObj.pyint 0)))
    (List.mem_cons_self _ _)

end Ovenbird
